/-
Verification of the dungeon-crawler core logic (logic.cpp).

The grid is embedded as a total function from integer coordinates to cells;
the C++ routines mutate a 2D char array, which is modelled by explicit
functional update (`upd`).  All machine integers are modelled as `Int`;
the only place where the 32-bit bound matters is the allocation guard of
`createMap` / `resizeMap`, which compares against `INT32_MAX` exactly as
the source does (both operands of the division are positive on every path
that reaches the guard, so Lean's Euclidean `/` agrees with C's `/`).
-/
import Mathlib

set_option maxHeartbeats 1000000

/-- Cell contents.  The source stores `char` values; the eight `TILE_*`
constants of `logic.h` are distinct characters, and `bad` stands for any
character that is none of them. -/
inductive Ch where
  | openT
  | pillar
  | doorT
  | exitT
  | treasure
  | amulet
  | monster
  | player
  | bad
deriving DecidableEq, Repr

/-- The 2D map: a total function from (row, col) to cell contents.
Cells outside the tracked bounds are irrelevant; `createMap` initializes
everything to `Ch.openT`. -/
abbrev Grid := Int → Int → Ch

/-- Functional update of one cell: models `map[r][c] = v`. -/
def upd (g : Grid) (r c : Int) (v : Ch) : Grid :=
  fun x y => if x = r ∧ y = c then v else g x y

/-- Build a concrete grid from a row-major list of rows (for test inputs). -/
def gridOfRows (rows : List (List Ch)) : Grid :=
  fun r c =>
    if 0 ≤ r ∧ 0 ≤ c then (rows.getD r.toNat []).getD c.toNat Ch.openT
    else Ch.openT

/-- The `Player` struct of `logic.h`: position and treasure counter. -/
structure Player where
  row : Int
  col : Int
  treasure : Int
deriving DecidableEq, Repr

/-- Movement status flags from `logic.h`. -/
def STATUS_STAY : Int := 0

def STATUS_MOVE : Int := 1

def STATUS_TREASURE : Int := 2

def STATUS_AMULET : Int := 3

def STATUS_LEAVE : Int := 4

def STATUS_ESCAPE : Int := 5

/-- `INT32_MAX` used by the allocation guards. -/
def INT32_MAX : Int := 2147483647

/-- `createMap(maxRow, maxCol)`: fails on nonpositive dimensions or when
`maxRow * maxCol` would exceed `INT32_MAX` (checked by division exactly as
in the source); otherwise returns an all-`Open` grid. -/
def createMap (maxRow maxCol : Int) : Option Grid :=
  if maxRow ≤ 0 ∨ maxCol ≤ 0 then none
  else if maxRow > INT32_MAX / maxCol then none
  else if maxCol > INT32_MAX / maxRow then none
  else some (fun _ _ => Ch.openT)

/-- The grid produced by the four copy loops of `resizeMap`: original in
the top-left quadrant, the three other quadrants copies with the `Player`
cell blanked to `Open`; outside all quadrants the `createMap` background
(`Open`) shows through. -/
def tileQuad (m : Grid) (maxRow maxCol : Int) : Grid := fun r c =>
  if 0 ≤ r ∧ r < maxRow ∧ 0 ≤ c ∧ c < maxCol then
    m r c
  else if maxRow ≤ r ∧ r < maxRow * 2 ∧ 0 ≤ c ∧ c < maxCol then
    (if m (r - maxRow) c = Ch.player then Ch.openT
     else m (r - maxRow) c)
  else if 0 ≤ r ∧ r < maxRow ∧ maxCol ≤ c ∧ c < maxCol * 2 then
    (if m r (c - maxCol) = Ch.player then Ch.openT
     else m r (c - maxCol))
  else if maxRow ≤ r ∧ r < maxRow * 2 ∧ maxCol ≤ c ∧ c < maxCol * 2 then
    (if m (r - maxRow) (c - maxCol) = Ch.player then Ch.openT
     else m (r - maxRow) (c - maxCol))
  else Ch.openT

/-- `resizeMap(map, maxRow, maxCol)`.  Returns the new map (or `none`) and
the final values of the by-reference `maxRow`, `maxCol` arguments.
The four copy loops of the source each write a disjoint quadrant of the
new grid exactly once, reading only the old grid, so they are translated
as a single piecewise definition.  The source does not null-check the
inner `createMap` call; its guard is implied by the resize guard, and the
`none` branch below is unreachable (proved in `createMap_of_guards`). -/
def resizeMap : Option Grid → Int → Int → Option Grid × Int × Int
  | none, maxRow, maxCol => (none, maxRow, maxCol)
  | some m, maxRow, maxCol =>
    if maxRow ≤ 0 ∨ maxCol ≤ 0 then (none, maxRow, maxCol)
    else
      let maxRow2 := maxRow * 2
      let maxCol2 := maxCol * 2
      if maxRow2 > INT32_MAX / maxCol2 then (none, maxRow2, maxCol2)
      else
        match createMap maxRow2 maxCol2 with
        | none => (none, maxRow2, maxCol2)
        | some _ => (some (tileQuad m maxRow maxCol), maxRow2, maxCol2)

/-- `doPlayerMove`: validates and applies one player move, returning the
updated map, the updated player, and the status flag.  The early-return
chain of the source becomes a nested if-chain; the final `return 0`
(reached when the target cell holds the player tile or an unknown char)
is the last branch. -/
def doPlayerMove (map : Grid) (maxRow maxCol : Int) (p : Player)
    (nextRow nextCol : Int) : Grid × Player × Int :=
  let origRow := p.row
  let origCol := p.col
  if nextRow ≥ maxRow ∨ nextCol ≥ maxCol then (map, p, STATUS_STAY)
  else if nextRow < 0 ∨ nextCol < 0 then (map, p, STATUS_STAY)
  else if map nextRow nextCol = Ch.monster ∨ map nextRow nextCol = Ch.pillar then
    (map, p, STATUS_STAY)
  else if map nextRow nextCol = Ch.exitT ∧ p.treasure = 0 then
    (map, p, STATUS_STAY)
  else if map nextRow nextCol = Ch.exitT ∧ p.treasure ≠ 0 then
    (upd (upd map nextRow nextCol Ch.player) origRow origCol Ch.openT,
     { p with row := nextRow, col := nextCol }, STATUS_ESCAPE)
  else if map nextRow nextCol = Ch.doorT then
    (upd (upd map nextRow nextCol Ch.player) origRow origCol Ch.openT,
     { p with row := nextRow, col := nextCol }, STATUS_LEAVE)
  else if map nextRow nextCol = Ch.treasure then
    (upd (upd map nextRow nextCol Ch.player) origRow origCol Ch.openT,
     { p with row := nextRow, col := nextCol, treasure := p.treasure + 1 },
     STATUS_TREASURE)
  else if map nextRow nextCol = Ch.amulet then
    (upd (upd map nextRow nextCol Ch.player) origRow origCol Ch.openT,
     { p with row := nextRow, col := nextCol }, STATUS_AMULET)
  else if map nextRow nextCol = Ch.openT then
    (upd (upd map nextRow nextCol Ch.player) origRow origCol Ch.openT,
     { p with row := nextRow, col := nextCol }, STATUS_MOVE)
  else (map, p, (0 : Int))

/-- The four scan directions of `doMonsterAttack` (the source writes the
four loops out by hand; they differ only in the sign pattern below). -/
inductive Dir where
  | up
  | down
  | right
  | left
deriving DecidableEq, Repr

/-- Row step of a direction. -/
def dRow : Dir → Int
  | .up => -1
  | .down => 1
  | .right => 0
  | .left => 0

/-- Column step of a direction. -/
def dCol : Dir → Int
  | .up => 0
  | .down => 0
  | .right => 1
  | .left => -1

/-- Row coordinate of the cell at distance `k` from `(pR, pC)` along `d`. -/
def posR (pR : Int) (d : Dir) (k : Int) : Int := pR + dRow d * k

/-- Column coordinate of the cell at distance `k` from `(pR, pC)` along `d`. -/
def posC (pC : Int) (d : Dir) (k : Int) : Int := pC + dCol d * k

/-- One scan loop of `doMonsterAttack` (`for(i = 1; i <= length; ++i)`).
`i` is the current loop counter, `fuel` the number of iterations left.
A monster at distance `i` is shifted to distance `i - 1` (distance 0 being
the player's own cell, which sets `eaten`); a pillar breaks the loop. -/
def attackRayAux (pRow pCol : Int) (d : Dir) :
    Grid → Bool → Nat → Nat → Grid × Bool
  | g, eaten, _, 0 => (g, eaten)
  | g, eaten, i, fuel + 1 =>
    let r := pRow + dRow d * (i : Int)
    let c := pCol + dCol d * (i : Int)
    if g r c = Ch.monster then
      attackRayAux pRow pCol d
        (upd (upd g r c Ch.openT)
          (pRow + dRow d * ((i : Int) - 1)) (pCol + dCol d * ((i : Int) - 1))
          Ch.monster)
        (if i = 1 then true else eaten) (i + 1) fuel
    else if g r c = Ch.pillar then (g, eaten)
    else attackRayAux pRow pCol d g eaten (i + 1) fuel

/-- Ray length used by `doMonsterAttack` for each direction. -/
def rayLen (maxRow maxCol : Int) (p : Player) : Dir → Int
  | .up => p.row
  | .down => maxRow - 1 - p.row
  | .right => maxCol - 1 - p.col
  | .left => p.col

/-- `doMonsterAttack(map, maxRow, maxCol, player)`: scans the four cardinal
rays in source order (up, down, right, left), mutating the grid as it goes,
and reports whether a monster stepped onto the player's cell. -/
def doMonsterAttack (map : Grid) (maxRow maxCol : Int) (p : Player) :
    Grid × Bool :=
  let pRow := p.row
  let pCol := p.col
  let upLength := pRow
  let downLength := maxRow - 1 - pRow
  let rightLength := maxCol - 1 - pCol
  let leftLength := pCol
  let s1 := attackRayAux pRow pCol .up map false 1 upLength.toNat
  let s2 := attackRayAux pRow pCol .down s1.1 s1.2 1 downLength.toNat
  let s3 := attackRayAux pRow pCol .right s2.1 s2.2 1 rightLength.toNat
  let s4 := attackRayAux pRow pCol .left s3.1 s3.2 1 leftLength.toNat
  (s4.1, s4.2)

/-- The inner column loop of `loadLevel`'s tile-reading nest: fills row `r`
from column `c` for `fuel` more cells, consuming one token per cell.
An exhausted token list models `fin.fail()`; the start cell is stored as
`Player` before the token is inspected (the token is still consumed); an
unrecognized token is a failure.  Comparison order follows the source. -/
def fillRow (pRow pCol r : Int) :
    Nat → Int → List Ch → Grid → Option (Grid × List Ch)
  | 0, _, toks, g => some (g, toks)
  | _ + 1, _, [], _ => none
  | fuel + 1, c, t :: rest, g =>
    if r = pRow ∧ c = pCol then
      fillRow pRow pCol r fuel (c + 1) rest (upd g r c Ch.player)
    else if t = Ch.treasure then
      fillRow pRow pCol r fuel (c + 1) rest (upd g r c Ch.treasure)
    else if t = Ch.pillar then
      fillRow pRow pCol r fuel (c + 1) rest (upd g r c Ch.pillar)
    else if t = Ch.openT then
      fillRow pRow pCol r fuel (c + 1) rest (upd g r c Ch.openT)
    else if t = Ch.amulet then
      fillRow pRow pCol r fuel (c + 1) rest (upd g r c Ch.amulet)
    else if t = Ch.monster then
      fillRow pRow pCol r fuel (c + 1) rest (upd g r c Ch.monster)
    else if t = Ch.doorT then
      fillRow pRow pCol r fuel (c + 1) rest (upd g r c Ch.doorT)
    else if t = Ch.exitT then
      fillRow pRow pCol r fuel (c + 1) rest (upd g r c Ch.exitT)
    else none

/-- The outer row loop of `loadLevel`'s tile-reading nest. -/
def fillAll (pRow pCol : Int) (colFuel : Nat) :
    Nat → Int → List Ch → Grid → Option (Grid × List Ch)
  | 0, _, toks, g => some (g, toks)
  | fuel + 1, r, toks, g =>
    match fillRow pRow pCol r colFuel 0 toks g with
    | none => none
    | some (g2, rest) => fillAll pRow pCol colFuel fuel (r + 1) rest g2

/-- The door/exit presence scan at the end of `loadLevel`. -/
def hasTile (g : Grid) (maxRow maxCol : Int) (t : Ch) : Bool :=
  (List.range maxRow.toNat).any fun r =>
    (List.range maxCol.toNat).any fun c =>
      decide (g (r : Int) (c : Int) = t)

/-- `loadLevel`, after the header tokens have been read: `maxRow`,
`maxCol`, `pRow`, `pCol` are the four parsed header values and `toks` the
remaining whitespace-separated tile tokens of the file.  The header checks,
tile loop, clean-EOF check and door/exit check follow the source order.
(File-open failure and non-numeric headers are I/O conditions outside this
embedding; both simply yield `nullptr` in the source.) -/
def loadLevel (maxRow maxCol pRow pCol : Int) (toks : List Ch) : Option Grid :=
  let totalSpots := maxRow * maxCol
  if totalSpots ≤ 1 then none
  else
    let map : Grid := fun _ _ => Ch.openT
    if pCol ≥ maxCol ∨ pRow ≥ maxRow then none
    else if pCol < 0 ∨ pRow < 0 then none
    else
      match fillAll pRow pCol maxCol.toNat maxRow.toNat 0 toks map with
      | none => none
      | some (g, rest) =>
        match rest with
        | _ :: _ => none
        | [] =>
          if hasTile g maxRow maxCol Ch.doorT = false ∧
             hasTile g maxRow maxCol Ch.exitT = false then none
          else some g

/-- The Grid/Player pairing invariant: within the `maxRow × maxCol` bounds
there is exactly one `Player` cell and it sits at `(r0, c0)`. -/
def onePlayerAt (g : Grid) (maxRow maxCol r0 c0 : Int) : Prop :=
  0 ≤ r0 ∧ r0 < maxRow ∧ 0 ≤ c0 ∧ c0 < maxCol ∧ g r0 c0 = Ch.player ∧
  ∀ r : Nat, r < maxRow.toNat → ∀ c : Nat, c < maxCol.toNat →
    g (r : Int) (c : Int) = Ch.player → ((r : Int) = r0 ∧ (c : Int) = c0)

instance (g : Grid) (maxRow maxCol r0 c0 : Int) :
    Decidable (onePlayerAt g maxRow maxCol r0 c0) := by
  unfold onePlayerAt
  infer_instance

/-- Concrete test level: a single column with two monsters above the
player (at ray distances 2 and 3 on the up ray). -/
def twoMonsterColumn : Grid :=
  gridOfRows [[Ch.openT], [Ch.monster], [Ch.monster], [Ch.openT], [Ch.player]]

/-- Concrete test level: 3×3 room, monster directly above the player. -/
def adjacentMonsterRoom : Grid :=
  gridOfRows [[Ch.openT, Ch.monster, Ch.openT],
    [Ch.openT, Ch.player, Ch.openT],
    [Ch.openT, Ch.openT, Ch.doorT]]

/-- Concrete test level: a column with a pillar (distance 2) shielding a
monster (distance 3) from the player. -/
def shieldedMonsterColumn : Grid :=
  gridOfRows [[Ch.monster], [Ch.pillar], [Ch.openT], [Ch.player]]

/-- Concrete test room: player next to an exit, with a door present. -/
def exitRoom : Grid :=
  gridOfRows [[Ch.player, Ch.exitT], [Ch.openT, Ch.doorT]]

/-- Concrete test room: player next to a pillar. -/
def pillarRoom : Grid :=
  gridOfRows [[Ch.player, Ch.pillar]]

/-! ### Basic update and ray-geometry lemmas -/

theorem upd_self (g : Grid) (r c : Int) (v : Ch) : upd g r c v r c = v := by
  simp [upd]

theorem upd_other (g : Grid) (r c : Int) (v : Ch) {x y : Int}
    (h : ¬(x = r ∧ y = c)) : upd g r c v x y = g x y := by
  simp [upd, h]

theorem dir_pos_inj (d : Dir) (pR pC : Int) {k l : Int}
    (h1 : posR pR d k = posR pR d l) (h2 : posC pC d k = posC pC d l) :
    k = l := by
  cases d <;> simp [posR, posC, dRow, dCol] at h1 h2 <;> omega

theorem dir_pos_ne (dT dS : Dir) (pR pC : Int) (hne : dT ≠ dS) {m k : Int}
    (hm : 1 ≤ m) (hk : 0 ≤ k) :
    ¬(posR pR dT m = posR pR dS k ∧ posC pC dT m = posC pC dS k) := by
  cases dT <;> cases dS <;>
    first
      | exact absurd rfl hne
      | (simp [posR, posC, dRow, dCol]; omega)

/-! ### Lemmas about one scan loop (`attackRayAux`) -/

/-- Frame: the loop from counter `i` with `fuel` iterations left writes only
cells at ray distances `i - 1 .. i + fuel - 1`; every other cell keeps its
value. -/
theorem attackRayAux_frame (pR pC : Int) (d : Dir) :
    ∀ (fuel i : Nat) (g : Grid) (e : Bool) (x y : Int), 1 ≤ i →
      (∀ k : Nat, i ≤ k + 1 → k < i + fuel →
        ¬(x = posR pR d k ∧ y = posC pC d k)) →
      (attackRayAux pR pC d g e i fuel).1 x y = g x y := by
  intro fuel
  induction fuel with
  | zero =>
    intro i g e x y hi hk
    simp [attackRayAux]
  | succ n ih =>
    intro i g e x y hi hk
    have hcast : ((i - 1 : Nat) : Int) = (i : Int) - 1 := by omega
    simp only [attackRayAux]
    by_cases hm : g (pR + dRow d * (i : Int)) (pC + dCol d * (i : Int)) = Ch.monster
    · simp only [hm, if_true]
      rw [ih (i + 1) _ _ x y (by omega)
        (fun k hk1 hk2 => hk k (by omega) (by omega))]
      rw [upd_other _ _ _ _ (by
        have := hk (i - 1) (by omega) (by omega)
        simpa [posR, posC, hcast] using this)]
      rw [upd_other _ _ _ _ (by
        have := hk i (by omega) (by omega)
        simpa [posR, posC] using this)]
    · by_cases hp : g (pR + dRow d * (i : Int)) (pC + dCol d * (i : Int)) = Ch.pillar
      · simp [hm, hp]
      · simp only [hm, hp, if_false]
        exact ih (i + 1) _ _ x y (by omega)
          (fun k hk1 hk2 => hk k (by omega) (by omega))

/-- The loop writes only `Open` and `Monster`: any other value found after
the loop was already there before. -/
theorem attackRayAux_writes_only (pR pC : Int) (d : Dir) (v : Ch)
    (hv1 : v ≠ Ch.openT) (hv2 : v ≠ Ch.monster) :
    ∀ (fuel i : Nat) (g : Grid) (e : Bool) (x y : Int),
      (attackRayAux pR pC d g e i fuel).1 x y = v → g x y = v := by
  intro fuel
  induction fuel with
  | zero =>
    intro i g e x y h
    simpa [attackRayAux] using h
  | succ n ih =>
    intro i g e x y h
    simp only [attackRayAux] at h
    by_cases hm : g (pR + dRow d * (i : Int)) (pC + dCol d * (i : Int)) = Ch.monster
    · simp only [hm, if_true] at h
      have h2 := ih _ _ _ _ _ h
      by_cases hx1 : x = pR + dRow d * ((i : Int) - 1) ∧ y = pC + dCol d * ((i : Int) - 1)
      · rw [hx1.1, hx1.2, upd_self] at h2
        exact absurd h2.symm hv2
      · rw [upd_other _ _ _ _ hx1] at h2
        by_cases hx2 : x = pR + dRow d * (i : Int) ∧ y = pC + dCol d * (i : Int)
        · rw [hx2.1, hx2.2, upd_self] at h2
          exact absurd h2.symm hv1
        · rwa [upd_other _ _ _ _ hx2] at h2
    · by_cases hp : g (pR + dRow d * (i : Int)) (pC + dCol d * (i : Int)) = Ch.pillar
      · simpa [hm, hp] using h
      · simp only [hm, hp, if_false] at h
        exact ih _ _ _ _ _ h

/-- Pillars are never overwritten: provided the cell one step inside the
current counter is not a pillar (true from the loop entry at `i = 1`
whenever the player's cell is not a pillar), every pillar cell keeps its
value through the loop. -/
theorem attackRayAux_pillar_stay (pR pC : Int) (d : Dir) :
    ∀ (fuel i : Nat) (g : Grid) (e : Bool), 1 ≤ i →
      g (pR + dRow d * ((i : Int) - 1)) (pC + dCol d * ((i : Int) - 1)) ≠ Ch.pillar →
      ∀ x y, g x y = Ch.pillar →
        (attackRayAux pR pC d g e i fuel).1 x y = Ch.pillar := by
  intro fuel
  induction fuel with
  | zero =>
    intro i g e hi hprev x y hxy
    simpa [attackRayAux] using hxy
  | succ n ih =>
    intro i g e hi hprev x y hxy
    simp only [attackRayAux]
    by_cases hm : g (pR + dRow d * (i : Int)) (pC + dCol d * (i : Int)) = Ch.monster
    · simp only [hm, if_true]
      have hii : (i : Int) ≠ (i : Int) - 1 := by omega
      have hxi : ¬(x = pR + dRow d * (i : Int) ∧ y = pC + dCol d * (i : Int)) := by
        rintro ⟨rfl, rfl⟩
        rw [hxy] at hm
        exact absurd hm (by decide)
      have hxi1 : ¬(x = pR + dRow d * ((i : Int) - 1) ∧
          y = pC + dCol d * ((i : Int) - 1)) := by
        rintro ⟨rfl, rfl⟩
        exact hprev hxy
      have hgi : (upd (upd g (pR + dRow d * (i : Int)) (pC + dCol d * (i : Int)) Ch.openT)
          (pR + dRow d * ((i : Int) - 1)) (pC + dCol d * ((i : Int) - 1)) Ch.monster)
          (pR + dRow d * (i : Int)) (pC + dCol d * (i : Int)) = Ch.openT := by
        rw [upd_other _ _ _ _ (by
          rintro ⟨h1, h2⟩
          exact hii (dir_pos_inj d pR pC (k := (i : Int)) (l := (i : Int) - 1) h1 h2))]
        exact upd_self _ _ _ _
      refine ih (i + 1) _ _ (by omega) ?_ x y ?_
      · have hc : ((i + 1 : Nat) : Int) - 1 = (i : Int) := by omega
        rw [hc, hgi]
        decide
      · rw [upd_other _ _ _ _ hxi1, upd_other _ _ _ _ hxi]
        exact hxy
    · by_cases hp : g (pR + dRow d * (i : Int)) (pC + dCol d * (i : Int)) = Ch.pillar
      · simpa [hm, hp] using hxy
      · simp only [hm, hp, if_false]
        refine ih (i + 1) _ _ (by omega) ?_ x y hxy
        have hc : ((i + 1 : Nat) : Int) - 1 = (i : Int) := by omega
        rw [hc]
        exact hp

/-- Once a pillar sits at distance `dist ≥ i` on the ray, no cell strictly
beyond it is ever touched by the loop. -/
theorem attackRayAux_beyond_pillar (pR pC : Int) (d : Dir) :
    ∀ (fuel i : Nat) (g : Grid) (e : Bool) (dist : Nat), 1 ≤ i → i ≤ dist →
      g (posR pR d dist) (posC pC d dist) = Ch.pillar →
      ∀ m : Nat, dist < m →
        (attackRayAux pR pC d g e i fuel).1 (posR pR d m) (posC pC d m) =
          g (posR pR d m) (posC pC d m) := by
  intro fuel
  induction fuel with
  | zero =>
    intro i g e dist hi hidist hpillar m hm
    simp [attackRayAux]
  | succ n ih =>
    intro i g e dist hi hidist hpillar m hm
    simp only [attackRayAux]
    rcases eq_or_lt_of_le hidist with heq | hlt
    · have hip : g (pR + dRow d * (i : Int)) (pC + dCol d * (i : Int)) = Ch.pillar := by
        subst heq
        simpa [posR, posC] using hpillar
      have hnm : ¬g (pR + dRow d * (i : Int)) (pC + dCol d * (i : Int)) = Ch.monster := by
        rw [hip]; decide
      simp [hnm, hip]
    · by_cases hmon : g (pR + dRow d * (i : Int)) (pC + dCol d * (i : Int)) = Ch.monster
      · simp only [hmon, if_true]
        have hne_i : ∀ (a : Nat), i < a →
            ¬((posR pR d a : Int) = pR + dRow d * (i : Int) ∧
              (posC pC d a : Int) = pC + dCol d * (i : Int)) := by
          intro a ha
          rintro ⟨h1, h2⟩
          have : (a : Int) = (i : Int) :=
            dir_pos_inj d pR pC (by simpa [posR] using h1) (by simpa [posC] using h2)
          omega
        have hne_i1 : ∀ (a : Nat), i ≤ a →
            ¬((posR pR d a : Int) = pR + dRow d * ((i : Int) - 1) ∧
              (posC pC d a : Int) = pC + dCol d * ((i : Int) - 1)) := by
          intro a ha
          rintro ⟨h1, h2⟩
          have : (a : Int) = (i : Int) - 1 :=
            dir_pos_inj d pR pC (by simpa [posR] using h1) (by simpa [posC] using h2)
          omega
        rw [ih (i + 1) _ _ dist (by omega) (by omega) ?_ m hm]
        · rw [upd_other _ _ _ _ (hne_i1 m (by omega)),
            upd_other _ _ _ _ (hne_i m (by omega))]
        · rw [upd_other _ _ _ _ (hne_i1 dist (by omega)),
            upd_other _ _ _ _ (hne_i dist (by omega))]
          exact hpillar
      · by_cases hp : g (pR + dRow d * (i : Int)) (pC + dCol d * (i : Int)) = Ch.pillar
        · simp [hmon, hp]
        · simp only [hmon, hp, if_false]
          exact ih (i + 1) _ _ dist (by omega) (by omega) hpillar m hm

/-- The player's own cell (ray distance 0) can only ever be written with
`Monster`: once it holds a monster it keeps holding one. -/
theorem attackRayAux_pos0_monster (pR pC : Int) (d : Dir) :
    ∀ (fuel i : Nat) (g : Grid) (e : Bool), 1 ≤ i → g pR pC = Ch.monster →
      (attackRayAux pR pC d g e i fuel).1 pR pC = Ch.monster := by
  intro fuel
  induction fuel with
  | zero =>
    intro i g e hi h0
    simpa [attackRayAux] using h0
  | succ n ih =>
    intro i g e hi h0
    simp only [attackRayAux]
    by_cases hm : g (pR + dRow d * (i : Int)) (pC + dCol d * (i : Int)) = Ch.monster
    · simp only [hm, if_true]
      refine ih (i + 1) _ _ (by omega) ?_
      by_cases h1 : pR = pR + dRow d * ((i : Int) - 1) ∧ pC = pC + dCol d * ((i : Int) - 1)
      · simp only [upd]
        rw [if_pos h1]
      · rw [upd_other _ _ _ _ h1, upd_other _ _ _ _ (by
          rintro ⟨ha, hb⟩
          have : (0 : Int) = (i : Int) :=
            dir_pos_inj d pR pC (k := 0) (l := (i : Int))
              (by simpa [posR] using ha) (by simpa [posC] using hb)
          omega)]
        exact h0
    · by_cases hp : g (pR + dRow d * (i : Int)) (pC + dCol d * (i : Int)) = Ch.pillar
      · simpa [hm, hp] using h0
      · simp only [hm, hp, if_false]
        exact ih (i + 1) _ _ (by omega) h0

/-- Once the `eaten` flag is set it is never cleared. -/
theorem attackRayAux_eaten_mono (pR pC : Int) (d : Dir) :
    ∀ (fuel i : Nat) (g : Grid),
      (attackRayAux pR pC d g true i fuel).2 = true := by
  intro fuel
  induction fuel with
  | zero => intro i g; simp [attackRayAux]
  | succ n ih =>
    intro i g
    simp only [attackRayAux]
    by_cases hm : g (pR + dRow d * (i : Int)) (pC + dCol d * (i : Int)) = Ch.monster
    · have : (if i = 1 then true else true) = true := by
        by_cases h1 : i = 1 <;> simp [h1]
      simp only [hm, if_true, this]
      exact ih (i + 1) _
    · by_cases hp : g (pR + dRow d * (i : Int)) (pC + dCol d * (i : Int)) = Ch.pillar
      · simp [hm, hp]
      · simp only [hm, hp, if_false]
        exact ih (i + 1) _

/-- If the loop changes the player's cell at all, it wrote a monster onto
it and the loop reports a capture. -/
theorem attackRayAux_pos0_changed (pR pC : Int) (d : Dir) :
    ∀ (fuel i : Nat) (g : Grid) (e : Bool), 1 ≤ i →
      (attackRayAux pR pC d g e i fuel).1 pR pC ≠ g pR pC →
      (attackRayAux pR pC d g e i fuel).1 pR pC = Ch.monster ∧
        (attackRayAux pR pC d g e i fuel).2 = true := by
  intro fuel
  induction fuel with
  | zero =>
    intro i g e hi hch
    exact absurd (by simp [attackRayAux]) hch
  | succ n ih =>
    intro i g e hi hch
    simp only [attackRayAux] at hch ⊢
    by_cases hm : g (pR + dRow d * (i : Int)) (pC + dCol d * (i : Int)) = Ch.monster
    · simp only [hm, if_true] at hch ⊢
      by_cases hone : i = 1
      · subst hone
        have hpos0 : (upd (upd g (pR + dRow d * ((1 : Nat) : Int))
            (pC + dCol d * ((1 : Nat) : Int)) Ch.openT)
            (pR + dRow d * (((1 : Nat) : Int) - 1)) (pC + dCol d * (((1 : Nat) : Int) - 1))
            Ch.monster) pR pC = Ch.monster := by
          have h1 : (((1 : Nat) : Int) - 1) = 0 := by omega
          rw [h1]
          have h2 : pR + dRow d * (0 : Int) = pR := by ring
          have h3 : pC + dCol d * (0 : Int) = pC := by ring
          rw [h2, h3]
          exact upd_self _ _ _ _
        constructor
        · exact attackRayAux_pos0_monster pR pC d n 2 _ _ (by omega) hpos0
        · simpa using attackRayAux_eaten_mono pR pC d n 2 _
      · have hkeep : (upd (upd g (pR + dRow d * (i : Int)) (pC + dCol d * (i : Int)) Ch.openT)
            (pR + dRow d * ((i : Int) - 1)) (pC + dCol d * ((i : Int) - 1))
            Ch.monster) pR pC = g pR pC := by
          rw [upd_other _ _ _ _ (by
            rintro ⟨ha, hb⟩
            have : (0 : Int) = (i : Int) - 1 :=
              dir_pos_inj d pR pC (k := 0) (l := (i : Int) - 1)
                (by simpa [posR] using ha) (by simpa [posC] using hb)
            omega)]
          rw [upd_other _ _ _ _ (by
            rintro ⟨ha, hb⟩
            have : (0 : Int) = (i : Int) :=
              dir_pos_inj d pR pC (k := 0) (l := (i : Int))
                (by simpa [posR] using ha) (by simpa [posC] using hb)
            omega)]
        rw [if_neg hone] at hch ⊢
        refine ih (i + 1) _ e (by omega) ?_
        rw [← hkeep] at hch
        exact hch
    · by_cases hp : g (pR + dRow d * (i : Int)) (pC + dCol d * (i : Int)) = Ch.pillar
      · simp only [hm, hp] at hch
        simp at hch
      · simp only [hm, hp, if_false] at hch ⊢
        exact ih (i + 1) _ e (by omega) hch

/-- Every monster on the ray with no pillar between it and the current
counter is advanced one step toward the player by the loop — the loop does
not stop after the first monster it moves. -/
theorem attackRayAux_advance (pR pC : Int) (d : Dir) :
    ∀ (fuel i : Nat) (g : Grid) (e : Bool) (dist : Nat), 1 ≤ i → i ≤ dist →
      dist < i + fuel →
      (∀ k : Nat, i ≤ k → k ≤ dist → g (posR pR d k) (posC pC d k) ≠ Ch.pillar) →
      g (posR pR d dist) (posC pC d dist) = Ch.monster →
      (attackRayAux pR pC d g e i fuel).1 (posR pR d (dist - 1)) (posC pC d (dist - 1)) =
        Ch.monster := by
  intro fuel
  induction fuel with
  | zero =>
    intro i g e dist hi hidist hfuel hnp hmon
    omega
  | succ n ih =>
    intro i g e dist hi hidist hfuel hnp hmon
    simp only [attackRayAux]
    rcases eq_or_lt_of_le hidist with heq | hlt
    · have hm : g (pR + dRow d * (i : Int)) (pC + dCol d * (i : Int)) = Ch.monster := by
        subst heq
        simpa [posR, posC] using hmon
      simp only [hm, if_true]
      subst heq
      rw [attackRayAux_frame pR pC d n (i + 1) _ _ _ _ (by omega) ?_]
      · rw [posR, posC]
        exact upd_self _ _ _ _
      · intro k hk1 hk2
        rintro ⟨ha, hb⟩
        have : (i : Int) - 1 = (k : Int) :=
          dir_pos_inj d pR pC (k := (i : Int) - 1) (l := (k : Int)) ha hb
        omega
    · by_cases hm : g (pR + dRow d * (i : Int)) (pC + dCol d * (i : Int)) = Ch.monster
      · simp only [hm, if_true]
        have hne_i : ∀ (a : Nat), i < a →
            ¬((posR pR d a : Int) = pR + dRow d * (i : Int) ∧
              (posC pC d a : Int) = pC + dCol d * (i : Int)) := by
          intro a ha
          rintro ⟨h1, h2⟩
          have : (a : Int) = (i : Int) :=
            dir_pos_inj d pR pC (by simpa [posR] using h1) (by simpa [posC] using h2)
          omega
        have hne_i1 : ∀ (a : Nat), i ≤ a →
            ¬((posR pR d a : Int) = pR + dRow d * ((i : Int) - 1) ∧
              (posC pC d a : Int) = pC + dCol d * ((i : Int) - 1)) := by
          intro a ha
          rintro ⟨h1, h2⟩
          have : (a : Int) = (i : Int) - 1 :=
            dir_pos_inj d pR pC (by simpa [posR] using h1) (by simpa [posC] using h2)
          omega
        refine ih (i + 1) _ _ dist (by omega) (by omega) (by omega) ?_ ?_
        · intro k hk1 hk2
          rw [upd_other _ _ _ _ (hne_i1 k (by omega)),
            upd_other _ _ _ _ (hne_i k (by omega))]
          exact hnp k (by omega) hk2
        · rw [upd_other _ _ _ _ (hne_i1 dist (by omega)),
            upd_other _ _ _ _ (hne_i dist (by omega))]
          exact hmon
      · have hp : ¬g (pR + dRow d * (i : Int)) (pC + dCol d * (i : Int)) = Ch.pillar := by
          have := hnp i (by omega) (by omega)
          simpa [posR, posC] using this
        simp only [hm, hp, if_false]
        exact ih (i + 1) _ _ dist (by omega) (by omega) (by omega)
          (fun k hk1 hk2 => hnp k (by omega) hk2) hmon

/-- A scan along direction `dS` never touches any cell at positive distance
along a different direction `dT` (the four rays share only the player's
cell). -/
theorem attackRayAux_other_ray (pR pC : Int) (dT dS : Dir) (hne : dT ≠ dS)
    (m : Nat) (hm : 1 ≤ m) :
    ∀ (fuel i : Nat) (g : Grid) (e : Bool), 1 ≤ i →
      (attackRayAux pR pC dS g e i fuel).1 (posR pR dT m) (posC pC dT m) =
        g (posR pR dT m) (posC pC dT m) := by
  intro fuel i g e hi
  refine attackRayAux_frame pR pC dS fuel i g e _ _ hi ?_
  intro k hk1 hk2
  exact dir_pos_ne dT dS pR pC hne (by omega) (by omega)

/-! ### Lemmas about the full four-ray pass (`doMonsterAttack`) -/

/-- A scan along `dS` keeps a monster sitting at any nonnegative distance
along a different direction `dT` (distance 0 is the shared player cell,
which is only ever written with `Monster`). -/
theorem attackRayAux_keep_monster_at (pR pC : Int) (dT dS : Dir) (hne : dT ≠ dS)
    (j : Int) (hj : 0 ≤ j) (fuel i : Nat) (g : Grid) (e : Bool) (hi : 1 ≤ i)
    (hmon : g (posR pR dT j) (posC pC dT j) = Ch.monster) :
    (attackRayAux pR pC dS g e i fuel).1 (posR pR dT j) (posC pC dT j) =
      Ch.monster := by
  rcases eq_or_lt_of_le hj with h0 | h1
  · have hR : posR pR dT j = pR := by rw [← h0, posR]; ring
    have hC : posC pC dT j = pC := by rw [← h0, posC]; ring
    rw [hR, hC] at hmon ⊢
    exact attackRayAux_pos0_monster pR pC dS fuel i g e hi hmon
  · have hj1 : j = ((j.toNat : Nat) : Int) := by omega
    rw [hj1] at hmon ⊢
    rw [attackRayAux_other_ray pR pC dT dS hne j.toNat (by omega) fuel i g e hi]
    exact hmon

/-- Pillar cells survive a whole `doMonsterAttack` call, provided the
player's cell is not itself a pillar. -/
theorem doMonsterAttack_pillar_stay (g : Grid) (maxRow maxCol : Int) (p : Player)
    (hp : g p.row p.col ≠ Ch.pillar) :
    ∀ x y, g x y = Ch.pillar →
      (doMonsterAttack g maxRow maxCol p).1 x y = Ch.pillar := by
  intro x y hxy
  simp only [doMonsterAttack]
  have keep : ∀ (d : Dir) (fuel : Nat) (h : Grid) (e : Bool),
      h p.row p.col ≠ Ch.pillar → h x y = Ch.pillar →
      ((attackRayAux p.row p.col d h e 1 fuel).1 p.row p.col ≠ Ch.pillar ∧
        (attackRayAux p.row p.col d h e 1 fuel).1 x y = Ch.pillar) := by
    intro d fuel h e h0 hcell
    constructor
    · intro hcontra
      exact h0 (attackRayAux_writes_only p.row p.col d Ch.pillar
        (by decide) (by decide) fuel 1 h e p.row p.col hcontra)
    · refine attackRayAux_pillar_stay p.row p.col d fuel 1 h e (by omega) ?_ x y hcell
      simpa using h0
  have k1 := keep .up p.row.toNat g false hp hxy
  have k2 := keep .down (maxRow - 1 - p.row).toNat
    (attackRayAux p.row p.col .up g false 1 p.row.toNat).1
    (attackRayAux p.row p.col .up g false 1 p.row.toNat).2 k1.1 k1.2
  have k3 := keep .right (maxCol - 1 - p.col).toNat _
    (attackRayAux p.row p.col .down
      (attackRayAux p.row p.col .up g false 1 p.row.toNat).1
      (attackRayAux p.row p.col .up g false 1 p.row.toNat).2 1
      (maxRow - 1 - p.row).toNat).2 k2.1 k2.2
  have k4 := keep .left p.col.toNat _
    (attackRayAux p.row p.col .right
      (attackRayAux p.row p.col .down
        (attackRayAux p.row p.col .up g false 1 p.row.toNat).1
        (attackRayAux p.row p.col .up g false 1 p.row.toNat).2 1
        (maxRow - 1 - p.row).toNat).1
      (attackRayAux p.row p.col .down
        (attackRayAux p.row p.col .up g false 1 p.row.toNat).1
        (attackRayAux p.row p.col .up g false 1 p.row.toNat).2 1
        (maxRow - 1 - p.row).toNat).2 1 (maxCol - 1 - p.col).toNat).2 k3.1 k3.2
  exact k4.2

/-- No cell ever becomes `Player` during `doMonsterAttack`. -/
theorem doMonsterAttack_no_new_player (g : Grid) (maxRow maxCol : Int)
    (p : Player) :
    ∀ x y, (doMonsterAttack g maxRow maxCol p).1 x y = Ch.player →
      g x y = Ch.player := by
  intro x y h
  simp only [doMonsterAttack] at h
  have w := attackRayAux_writes_only p.row p.col
  exact w .up Ch.player (by decide) (by decide) _ _ _ _ _ _
    (w .down Ch.player (by decide) (by decide) _ _ _ _ _ _
      (w .right Ch.player (by decide) (by decide) _ _ _ _ _ _
        (w .left Ch.player (by decide) (by decide) _ _ _ _ _ _ h)))

/-- Cells strictly beyond a pillar on a ray are untouched by the whole
four-ray pass. -/
theorem doMonsterAttack_beyond_pillar (g : Grid) (maxRow maxCol : Int)
    (p : Player) (d : Dir) (dist : Nat) (hdist : 1 ≤ dist)
    (hpill : g (posR p.row d dist) (posC p.col d dist) = Ch.pillar) :
    ∀ m : Nat, dist < m →
      (doMonsterAttack g maxRow maxCol p).1 (posR p.row d m) (posC p.col d m) =
        g (posR p.row d m) (posC p.col d m) := by
  intro m hm
  have hm1 : 1 ≤ m := by omega
  simp only [doMonsterAttack]
  cases d
  case up =>
    rw [attackRayAux_other_ray p.row p.col .up .left (by decide) m hm1 _ 1 _ _ (by omega)]
    rw [attackRayAux_other_ray p.row p.col .up .right (by decide) m hm1 _ 1 _ _ (by omega)]
    rw [attackRayAux_other_ray p.row p.col .up .down (by decide) m hm1 _ 1 _ _ (by omega)]
    exact attackRayAux_beyond_pillar p.row p.col .up _ 1 g false dist
      (by omega) (by omega) hpill m hm
  case down =>
    rw [attackRayAux_other_ray p.row p.col .down .left (by decide) m hm1 _ 1 _ _ (by omega)]
    rw [attackRayAux_other_ray p.row p.col .down .right (by decide) m hm1 _ 1 _ _ (by omega)]
    have hpill1 : (attackRayAux p.row p.col .up g false 1 p.row.toNat).1
        (posR p.row .down dist) (posC p.col .down dist) = Ch.pillar := by
      rw [attackRayAux_other_ray p.row p.col .down .up (by decide) dist hdist _ 1 _ _ (by omega)]
      exact hpill
    rw [attackRayAux_beyond_pillar p.row p.col .down _ 1 _ _ dist
      (by omega) (by omega) hpill1 m hm]
    rw [attackRayAux_other_ray p.row p.col .down .up (by decide) m hm1 _ 1 _ _ (by omega)]
  case right =>
    rw [attackRayAux_other_ray p.row p.col .right .left (by decide) m hm1 _ 1 _ _ (by omega)]
    have hpill1 : (attackRayAux p.row p.col .up g false 1 p.row.toNat).1
        (posR p.row .right dist) (posC p.col .right dist) = Ch.pillar := by
      rw [attackRayAux_other_ray p.row p.col .right .up (by decide) dist hdist _ 1 _ _ (by omega)]
      exact hpill
    have hpill2 : (attackRayAux p.row p.col .down
        (attackRayAux p.row p.col .up g false 1 p.row.toNat).1
        (attackRayAux p.row p.col .up g false 1 p.row.toNat).2 1
        (maxRow - 1 - p.row).toNat).1
        (posR p.row .right dist) (posC p.col .right dist) = Ch.pillar := by
      rw [attackRayAux_other_ray p.row p.col .right .down (by decide) dist hdist _ 1 _ _ (by omega)]
      exact hpill1
    rw [attackRayAux_beyond_pillar p.row p.col .right _ 1 _ _ dist
      (by omega) (by omega) hpill2 m hm]
    rw [attackRayAux_other_ray p.row p.col .right .down (by decide) m hm1 _ 1 _ _ (by omega)]
    rw [attackRayAux_other_ray p.row p.col .right .up (by decide) m hm1 _ 1 _ _ (by omega)]
  case left =>
    have hpill1 : (attackRayAux p.row p.col .up g false 1 p.row.toNat).1
        (posR p.row .left dist) (posC p.col .left dist) = Ch.pillar := by
      rw [attackRayAux_other_ray p.row p.col .left .up (by decide) dist hdist _ 1 _ _ (by omega)]
      exact hpill
    have hpill2 : (attackRayAux p.row p.col .down
        (attackRayAux p.row p.col .up g false 1 p.row.toNat).1
        (attackRayAux p.row p.col .up g false 1 p.row.toNat).2 1
        (maxRow - 1 - p.row).toNat).1
        (posR p.row .left dist) (posC p.col .left dist) = Ch.pillar := by
      rw [attackRayAux_other_ray p.row p.col .left .down (by decide) dist hdist _ 1 _ _ (by omega)]
      exact hpill1
    have hpill3 : (attackRayAux p.row p.col .right
        (attackRayAux p.row p.col .down
          (attackRayAux p.row p.col .up g false 1 p.row.toNat).1
          (attackRayAux p.row p.col .up g false 1 p.row.toNat).2 1
          (maxRow - 1 - p.row).toNat).1
        (attackRayAux p.row p.col .down
          (attackRayAux p.row p.col .up g false 1 p.row.toNat).1
          (attackRayAux p.row p.col .up g false 1 p.row.toNat).2 1
          (maxRow - 1 - p.row).toNat).2 1 (maxCol - 1 - p.col).toNat).1
        (posR p.row .left dist) (posC p.col .left dist) = Ch.pillar := by
      rw [attackRayAux_other_ray p.row p.col .left .right (by decide) dist hdist _ 1 _ _ (by omega)]
      exact hpill2
    rw [attackRayAux_beyond_pillar p.row p.col .left _ 1 _ _ dist
      (by omega) (by omega) hpill3 m hm]
    rw [attackRayAux_other_ray p.row p.col .left .right (by decide) m hm1 _ 1 _ _ (by omega)]
    rw [attackRayAux_other_ray p.row p.col .left .down (by decide) m hm1 _ 1 _ _ (by omega)]
    rw [attackRayAux_other_ray p.row p.col .left .up (by decide) m hm1 _ 1 _ _ (by omega)]

/-- If the whole pass changes the player's cell at all, the new value is
`Monster` and the call reports a capture. -/
theorem doMonsterAttack_pos0_changed (g : Grid) (maxRow maxCol : Int)
    (p : Player)
    (hch : (doMonsterAttack g maxRow maxCol p).1 p.row p.col ≠ g p.row p.col) :
    (doMonsterAttack g maxRow maxCol p).1 p.row p.col = Ch.monster ∧
      (doMonsterAttack g maxRow maxCol p).2 = true := by
  simp only [doMonsterAttack] at hch ⊢
  set s1 := attackRayAux p.row p.col Dir.up g false 1 p.row.toNat with hs1
  set s2 := attackRayAux p.row p.col Dir.down s1.1 s1.2 1
    (maxRow - 1 - p.row).toNat with hs2
  set s3 := attackRayAux p.row p.col Dir.right s2.1 s2.2 1
    (maxCol - 1 - p.col).toNat with hs3
  set s4 := attackRayAux p.row p.col Dir.left s3.1 s3.2 1 p.col.toNat with hs4
  by_cases c4 : s4.1 p.row p.col = s3.1 p.row p.col
  case neg =>
    rw [hs4] at c4 ⊢
    exact attackRayAux_pos0_changed p.row p.col Dir.left p.col.toNat 1
      s3.1 s3.2 (by omega) c4
  case pos =>
    rw [c4] at hch ⊢
    by_cases c3 : s3.1 p.row p.col = s2.1 p.row p.col
    case neg =>
      rw [hs3] at c3
      have h := attackRayAux_pos0_changed p.row p.col Dir.right
        (maxCol - 1 - p.col).toNat 1 s2.1 s2.2 (by omega) c3
      rw [← hs3] at h
      refine ⟨h.1, ?_⟩
      rw [hs4, h.2]
      exact attackRayAux_eaten_mono p.row p.col Dir.left p.col.toNat 1 s3.1
    case pos =>
      rw [c3] at hch ⊢
      by_cases c2 : s2.1 p.row p.col = s1.1 p.row p.col
      case neg =>
        rw [hs2] at c2
        have h := attackRayAux_pos0_changed p.row p.col Dir.down
          (maxRow - 1 - p.row).toNat 1 s1.1 s1.2 (by omega) c2
        rw [← hs2] at h
        refine ⟨h.1, ?_⟩
        have e3 : s3.2 = true := by
          rw [hs3, h.2]
          exact attackRayAux_eaten_mono p.row p.col Dir.right
            (maxCol - 1 - p.col).toNat 1 s2.1
        rw [hs4, e3]
        exact attackRayAux_eaten_mono p.row p.col Dir.left p.col.toNat 1 s3.1
      case pos =>
        rw [c2] at hch ⊢
        by_cases c1 : s1.1 p.row p.col = g p.row p.col
        case pos =>
          rw [c1] at hch
          exact absurd rfl hch
        case neg =>
          rw [hs1] at c1
          have h := attackRayAux_pos0_changed p.row p.col Dir.up
            p.row.toNat 1 g false (by omega) c1
          rw [← hs1] at h
          refine ⟨h.1, ?_⟩
          have e2 : s2.2 = true := by
            rw [hs2, h.2]
            exact attackRayAux_eaten_mono p.row p.col Dir.down
              (maxRow - 1 - p.row).toNat 1 s1.1
          have e3 : s3.2 = true := by
            rw [hs3, e2]
            exact attackRayAux_eaten_mono p.row p.col Dir.right
              (maxCol - 1 - p.col).toNat 1 s2.1
          rw [hs4, e3]
          exact attackRayAux_eaten_mono p.row p.col Dir.left p.col.toNat 1 s3.1

/-- Every monster with a pillar-free line of sight to the player (at ray
distance `dist` within the scanned length) is one step closer to the
player after `doMonsterAttack` — including monsters farther out than the
nearest one on the same ray. -/
theorem doMonsterAttack_advance (g : Grid) (maxRow maxCol : Int) (p : Player)
    (d : Dir) (dist : Nat) (hdist : 1 ≤ dist)
    (hL : (dist : Int) ≤ rayLen maxRow maxCol p d)
    (hnp : ∀ k : Nat, k ≤ dist → 1 ≤ k →
      g (posR p.row d k) (posC p.col d k) ≠ Ch.pillar)
    (hmon : g (posR p.row d dist) (posC p.col d dist) = Ch.monster) :
    (doMonsterAttack g maxRow maxCol p).1
      (posR p.row d ((dist : Int) - 1)) (posC p.col d ((dist : Int) - 1)) =
      Ch.monster := by
  simp only [doMonsterAttack]
  set s1 := attackRayAux p.row p.col Dir.up g false 1 p.row.toNat with hs1
  set s2 := attackRayAux p.row p.col Dir.down s1.1 s1.2 1
    (maxRow - 1 - p.row).toNat with hs2
  set s3 := attackRayAux p.row p.col Dir.right s2.1 s2.2 1
    (maxCol - 1 - p.col).toNat with hs3
  set s4 := attackRayAux p.row p.col Dir.left s3.1 s3.2 1 p.col.toNat with hs4
  cases d
  case up =>
    have hLn : (dist : Int) ≤ p.row := by simpa [rayLen] using hL
    have adv : s1.1 (posR p.row .up ((dist : Int) - 1))
        (posC p.col .up ((dist : Int) - 1)) = Ch.monster := by
      rw [hs1]
      exact attackRayAux_advance p.row p.col .up p.row.toNat 1 g false dist
        (by omega) (by omega) (by omega) (fun k h1 h2 => hnp k h2 h1) hmon
    have k2 : s2.1 (posR p.row .up ((dist : Int) - 1))
        (posC p.col .up ((dist : Int) - 1)) = Ch.monster := by
      rw [hs2]
      exact attackRayAux_keep_monster_at p.row p.col .up .down (by decide)
        ((dist : Int) - 1) (by omega) _ 1 s1.1 s1.2 (by omega) adv
    have k3 : s3.1 (posR p.row .up ((dist : Int) - 1))
        (posC p.col .up ((dist : Int) - 1)) = Ch.monster := by
      rw [hs3]
      exact attackRayAux_keep_monster_at p.row p.col .up .right (by decide)
        ((dist : Int) - 1) (by omega) _ 1 s2.1 s2.2 (by omega) k2
    rw [hs4]
    exact attackRayAux_keep_monster_at p.row p.col .up .left (by decide)
      ((dist : Int) - 1) (by omega) _ 1 s3.1 s3.2 (by omega) k3
  case down =>
    have hLn : (dist : Int) ≤ maxRow - 1 - p.row := by simpa [rayLen] using hL
    have t1 : ∀ k : Nat, 1 ≤ k →
        s1.1 (posR p.row .down k) (posC p.col .down k) =
          g (posR p.row .down k) (posC p.col .down k) := by
      intro k hk
      rw [hs1]
      exact attackRayAux_other_ray p.row p.col .down .up (by decide) k hk _ 1 _ _ (by omega)
    have adv : s2.1 (posR p.row .down ((dist : Int) - 1))
        (posC p.col .down ((dist : Int) - 1)) = Ch.monster := by
      rw [hs2]
      refine attackRayAux_advance p.row p.col .down (maxRow - 1 - p.row).toNat 1
        s1.1 s1.2 dist (by omega) (by omega) (by omega) ?_ ?_
      · intro k h1 h2
        rw [t1 k (by omega)]
        exact hnp k h2 h1
      · rw [t1 dist (by omega)]
        exact hmon
    have k3 : s3.1 (posR p.row .down ((dist : Int) - 1))
        (posC p.col .down ((dist : Int) - 1)) = Ch.monster := by
      rw [hs3]
      exact attackRayAux_keep_monster_at p.row p.col .down .right (by decide)
        ((dist : Int) - 1) (by omega) _ 1 s2.1 s2.2 (by omega) adv
    rw [hs4]
    exact attackRayAux_keep_monster_at p.row p.col .down .left (by decide)
      ((dist : Int) - 1) (by omega) _ 1 s3.1 s3.2 (by omega) k3
  case right =>
    have hLn : (dist : Int) ≤ maxCol - 1 - p.col := by simpa [rayLen] using hL
    have t1 : ∀ k : Nat, 1 ≤ k →
        s1.1 (posR p.row .right k) (posC p.col .right k) =
          g (posR p.row .right k) (posC p.col .right k) := by
      intro k hk
      rw [hs1]
      exact attackRayAux_other_ray p.row p.col .right .up (by decide) k hk _ 1 _ _ (by omega)
    have t2 : ∀ k : Nat, 1 ≤ k →
        s2.1 (posR p.row .right k) (posC p.col .right k) =
          s1.1 (posR p.row .right k) (posC p.col .right k) := by
      intro k hk
      rw [hs2]
      exact attackRayAux_other_ray p.row p.col .right .down (by decide) k hk _ 1 _ _ (by omega)
    have adv : s3.1 (posR p.row .right ((dist : Int) - 1))
        (posC p.col .right ((dist : Int) - 1)) = Ch.monster := by
      rw [hs3]
      refine attackRayAux_advance p.row p.col .right (maxCol - 1 - p.col).toNat 1
        s2.1 s2.2 dist (by omega) (by omega) (by omega) ?_ ?_
      · intro k h1 h2
        rw [t2 k (by omega), t1 k (by omega)]
        exact hnp k h2 h1
      · rw [t2 dist (by omega), t1 dist (by omega)]
        exact hmon
    rw [hs4]
    exact attackRayAux_keep_monster_at p.row p.col .right .left (by decide)
      ((dist : Int) - 1) (by omega) _ 1 s3.1 s3.2 (by omega) adv
  case left =>
    have hLn : (dist : Int) ≤ p.col := by simpa [rayLen] using hL
    have t1 : ∀ k : Nat, 1 ≤ k →
        s1.1 (posR p.row .left k) (posC p.col .left k) =
          g (posR p.row .left k) (posC p.col .left k) := by
      intro k hk
      rw [hs1]
      exact attackRayAux_other_ray p.row p.col .left .up (by decide) k hk _ 1 _ _ (by omega)
    have t2 : ∀ k : Nat, 1 ≤ k →
        s2.1 (posR p.row .left k) (posC p.col .left k) =
          s1.1 (posR p.row .left k) (posC p.col .left k) := by
      intro k hk
      rw [hs2]
      exact attackRayAux_other_ray p.row p.col .left .down (by decide) k hk _ 1 _ _ (by omega)
    have t3 : ∀ k : Nat, 1 ≤ k →
        s3.1 (posR p.row .left k) (posC p.col .left k) =
          s2.1 (posR p.row .left k) (posC p.col .left k) := by
      intro k hk
      rw [hs3]
      exact attackRayAux_other_ray p.row p.col .left .right (by decide) k hk _ 1 _ _ (by omega)
    rw [hs4]
    refine attackRayAux_advance p.row p.col .left p.col.toNat 1
      s3.1 s3.2 dist (by omega) (by omega) (by omega) ?_ ?_
    · intro k h1 h2
      rw [t3 k (by omega), t2 k (by omega), t1 k (by omega)]
      exact hnp k h2 h1
    · rw [t3 dist (by omega), t2 dist (by omega), t1 dist (by omega)]
      exact hmon

/-! ### Lemmas about `doPlayerMove` -/

/-- Relocating the player by the write pair of `doPlayerMove` (new cell
`Player`, then old cell `Open`) moves the unique `Player` cell. -/
theorem upd_move_onePlayer (g : Grid) (maxRow maxCol r0 c0 nr nc : Int)
    (h : onePlayerAt g maxRow maxCol r0 c0)
    (hb1 : 0 ≤ nr) (hb2 : nr < maxRow) (hb3 : 0 ≤ nc) (hb4 : nc < maxCol)
    (hne : g nr nc ≠ Ch.player) :
    onePlayerAt (upd (upd g nr nc Ch.player) r0 c0 Ch.openT)
      maxRow maxCol nr nc := by
  obtain ⟨h1, h2, h3, h4, h5, h6⟩ := h
  have hneq : ¬(nr = r0 ∧ nc = c0) := by
    rintro ⟨rfl, rfl⟩
    exact hne h5
  refine ⟨hb1, hb2, hb3, hb4, ?_, ?_⟩
  · rw [upd_other _ _ _ _ hneq, upd_self]
  · intro r hr c hc hplayer
    by_cases hc0 : (r : Int) = r0 ∧ (c : Int) = c0
    · rw [hc0.1, hc0.2, upd_self] at hplayer
      exact absurd hplayer (by decide)
    · rw [upd_other _ _ _ _ hc0] at hplayer
      by_cases hcn : (r : Int) = nr ∧ (c : Int) = nc
      · exact hcn
      · rw [upd_other _ _ _ _ hcn] at hplayer
        exact absurd (h6 r hr c hc hplayer) hc0

/-- `doPlayerMove` preserves the unique-`Player` invariant, keeping the
player's coordinates synchronized with the `Player` cell. -/
theorem doPlayerMove_onePlayer (g : Grid) (maxRow maxCol : Int) (p : Player)
    (nr nc : Int) (h : onePlayerAt g maxRow maxCol p.row p.col) :
    onePlayerAt (doPlayerMove g maxRow maxCol p nr nc).1 maxRow maxCol
      (doPlayerMove g maxRow maxCol p nr nc).2.1.row
      (doPlayerMove g maxRow maxCol p nr nc).2.1.col := by
  simp only [doPlayerMove]
  split_ifs with h1 h2 h3 h4 h5 h6 h7 h8 h9
  · exact h
  · exact h
  · exact h
  · exact h
  · exact upd_move_onePlayer g maxRow maxCol p.row p.col nr nc h
      (by omega) (by omega) (by omega) (by omega) (by rw [h5.1]; decide)
  · exact upd_move_onePlayer g maxRow maxCol p.row p.col nr nc h
      (by omega) (by omega) (by omega) (by omega) (by rw [h6]; decide)
  · exact upd_move_onePlayer g maxRow maxCol p.row p.col nr nc h
      (by omega) (by omega) (by omega) (by omega) (by rw [h7]; decide)
  · exact upd_move_onePlayer g maxRow maxCol p.row p.col nr nc h
      (by omega) (by omega) (by omega) (by omega) (by rw [h8]; decide)
  · exact upd_move_onePlayer g maxRow maxCol p.row p.col nr nc h
      (by omega) (by omega) (by omega) (by omega) (by rw [h9]; decide)
  · exact h

/-! ### Lemmas about `createMap` and `resizeMap` -/

/-- The division-based overflow guard of the source is exactly a product
bound: for positive `a`, `b`, `a > INT32_MAX / b` fails iff
`a * b ≤ INT32_MAX`. -/
theorem le_div_guard {a b : Int} (ha : 0 < a) (hb : 0 < b)
    (h : a * b ≤ INT32_MAX) : ¬(a > INT32_MAX / b) := by
  simp only [gt_iff_lt, not_lt]
  exact (Int.le_ediv_iff_mul_le hb).2 h

/-- `createMap` succeeds (with the all-`Open` grid) whenever the requested
dimensions are positive and their product fits in 32 bits. -/
theorem createMap_of_guards (a b : Int) (ha : 0 < a) (hb : 0 < b)
    (h : a * b ≤ INT32_MAX) :
    createMap a b = some (fun _ _ => Ch.openT) := by
  unfold createMap
  rw [if_neg (by omega), if_neg (le_div_guard ha hb h),
    if_neg (le_div_guard hb ha (by rwa [mul_comm] at h))]

/-- Full characterization of a successful `resizeMap`: the dimensions
double and the new grid is the explicit four-quadrant tiling. -/
theorem resizeMap_eq (m : Grid) (maxRow maxCol : Int)
    (hR : 0 < maxRow) (hC : 0 < maxCol)
    (hov : maxRow * 2 * (maxCol * 2) ≤ INT32_MAX) :
    resizeMap (some m) maxRow maxCol =
      (some (tileQuad m maxRow maxCol), maxRow * 2, maxCol * 2) := by
  have hcm := createMap_of_guards (maxRow * 2) (maxCol * 2)
    (by omega) (by omega) hov
  simp only [resizeMap]
  rw [if_neg (by omega),
    if_neg (le_div_guard (by omega : (0 : Int) < maxRow * 2)
      (by omega : (0 : Int) < maxCol * 2) hov)]
  rw [hcm]

/-- Cell values of the tiled grid on each quadrant. -/
theorem tileQuad_cells (m : Grid) (maxRow maxCol : Int) (r c : Int)
    (hr1 : 0 ≤ r) (hr2 : r < maxRow) (hc1 : 0 ≤ c) (hc2 : c < maxCol) :
    tileQuad m maxRow maxCol r c = m r c ∧
    tileQuad m maxRow maxCol (r + maxRow) c =
      (if m r c = Ch.player then Ch.openT else m r c) ∧
    tileQuad m maxRow maxCol r (c + maxCol) =
      (if m r c = Ch.player then Ch.openT else m r c) ∧
    tileQuad m maxRow maxCol (r + maxRow) (c + maxCol) =
      (if m r c = Ch.player then Ch.openT else m r c) := by
  refine ⟨?_, ?_, ?_, ?_⟩
  · rw [tileQuad, if_pos ⟨hr1, hr2, hc1, hc2⟩]
  · rw [tileQuad, if_neg (by omega), if_pos (by omega : maxRow ≤ r + maxRow ∧
      r + maxRow < maxRow * 2 ∧ 0 ≤ c ∧ c < maxCol)]
    simp only [add_sub_cancel_right]
  · rw [tileQuad, if_neg (by omega), if_neg (by omega),
      if_pos (by omega : 0 ≤ r ∧ r < maxRow ∧ maxCol ≤ c + maxCol ∧
        c + maxCol < maxCol * 2)]
    simp only [add_sub_cancel_right]
  · rw [tileQuad, if_neg (by omega), if_neg (by omega), if_neg (by omega),
      if_pos (by omega : maxRow ≤ r + maxRow ∧ r + maxRow < maxRow * 2 ∧
        maxCol ≤ c + maxCol ∧ c + maxCol < maxCol * 2)]
    simp only [add_sub_cancel_right]

/-- The tiled grid keeps exactly one `Player`, at its original spot. -/
theorem tileQuad_onePlayer (m : Grid) (maxRow maxCol r0 c0 : Int)
    (hone : onePlayerAt m maxRow maxCol r0 c0) :
    onePlayerAt (tileQuad m maxRow maxCol) (maxRow * 2) (maxCol * 2) r0 c0 := by
  obtain ⟨h1, h2, h3, h4, h5, h6⟩ := hone
  refine ⟨h1, by omega, h3, by omega, ?_, ?_⟩
  · rw [tileQuad, if_pos ⟨h1, h2, h3, h4⟩]
    exact h5
  · intro r hr c hc hplayer
    rw [tileQuad] at hplayer
    split_ifs at hplayer with q1 q2 q3 q4
    · have hrN : r < maxRow.toNat := by omega
      have hcN : c < maxCol.toNat := by omega
      exact h6 r hrN c hcN hplayer
    all_goals first
      | exact absurd hplayer (by decide)
      | exact absurd hplayer (by assumption)

/-! ### Lemmas about the level-loading loops -/

/-- Where can a `Player` in an updated grid come from. -/
theorem upd_player_src (g : Grid) (r c x y : Int) (v : Ch)
    (h : upd g r c v x y = Ch.player) :
    (v = Ch.player ∧ x = r ∧ y = c) ∨ g x y = Ch.player := by
  by_cases hc : x = r ∧ y = c
  · simp only [upd] at h
    rw [if_pos hc] at h
    exact Or.inl ⟨h, hc⟩
  · simp only [upd] at h
    rw [if_neg hc] at h
    exact Or.inr h

/-- On success the inner column loop consumes exactly `fuel` tokens. -/
theorem fillRow_drop (pRow pCol r : Int) :
    ∀ (fuel : Nat) (c : Int) (toks : List Ch) (g g2 : Grid) (rest : List Ch),
      fillRow pRow pCol r fuel c toks g = some (g2, rest) →
      rest = toks.drop fuel := by
  intro fuel
  induction fuel with
  | zero =>
    intro c toks g g2 rest h
    simp only [fillRow, Option.some.injEq, Prod.mk.injEq] at h
    rw [List.drop_zero]
    exact h.2.symm
  | succ n ih =>
    intro c toks g g2 rest h
    cases toks with
    | nil => simp [fillRow] at h
    | cons t rest0 =>
      rw [List.drop_succ_cons]
      simp only [fillRow] at h
      split_ifs at h
      all_goals first
        | exact absurd h (by simp)
        | exact ih _ _ _ _ _ h

/-- An unrecognized token (or the player character, which the tile chain
never matches) anywhere in the row other than at the start cell makes the
column loop fail. -/
theorem fillRow_bad (pRow pCol r : Int) :
    ∀ (fuel : Nat) (c : Int) (toks : List Ch) (g : Grid) (k : Nat) (t : Ch),
      toks[k]? = some t → (t = Ch.bad ∨ t = Ch.player) → k < fuel →
      ¬(r = pRow ∧ c + (k : Int) = pCol) →
      fillRow pRow pCol r fuel c toks g = none := by
  intro fuel
  induction fuel with
  | zero =>
    intro c toks g k t h1 h2 h3 h4
    omega
  | succ n ih =>
    intro c toks g k t h1 h2 h3 h4
    cases toks with
    | nil => simp at h1
    | cons t0 rest =>
      cases k with
      | zero =>
        rw [List.getElem?_cons_zero, Option.some.injEq] at h1
        subst h1
        simp only [fillRow]
        rw [if_neg (by
          rintro ⟨hr, hc⟩
          exact h4 ⟨hr, by omega⟩)]
        rcases h2 with h2 | h2 <;> subst h2 <;> simp
      | succ k0 =>
        rw [List.getElem?_cons_succ] at h1
        simp only [fillRow]
        split_ifs
        all_goals first
          | rfl
          | exact ih (c + 1) rest _ k0 t h1 h2 (by omega) (by
              rintro ⟨hr, hc⟩
              exact h4 ⟨hr, by push_cast at hc ⊢; omega⟩)

/-- Any `Player` present after the column loop was either already there or
sits at the start cell. -/
theorem fillRow_player_src (pRow pCol r : Int) :
    ∀ (fuel : Nat) (c : Int) (toks : List Ch) (g g2 : Grid) (rest : List Ch),
      fillRow pRow pCol r fuel c toks g = some (g2, rest) →
      ∀ x y, g2 x y = Ch.player →
        g x y = Ch.player ∨ (x = pRow ∧ y = pCol) := by
  intro fuel
  induction fuel with
  | zero =>
    intro c toks g g2 rest h x y hx
    simp only [fillRow, Option.some.injEq, Prod.mk.injEq] at h
    rw [← h.1] at hx
    exact Or.inl hx
  | succ n ih =>
    intro c toks g g2 rest h x y hx
    cases toks with
    | nil => simp [fillRow] at h
    | cons t rest0 =>
      simp only [fillRow] at h
      split_ifs at h with h1 h2 h3 h4 h5 h6 h7 h8
      · rcases ih _ _ _ _ _ h x y hx with hg | hr
        · rcases upd_player_src _ _ _ _ _ _ hg with ⟨_, hx1, hy1⟩ | hgg
          · exact Or.inr ⟨by rw [hx1]; exact h1.1, by rw [hy1]; exact h1.2⟩
          · exact Or.inl hgg
        · exact Or.inr hr
      all_goals first
        | exact absurd h (by simp)
        | (rcases ih _ _ _ _ _ h x y hx with hg | hr
           · rcases upd_player_src _ _ _ _ _ _ hg with ⟨hv, _, _⟩ | hgg
             · exact absurd hv (by decide)
             · exact Or.inl hgg
           · exact Or.inr hr)

/-- The column loop for row `r` touches only cells of row `r` at columns
`≥ c`. -/
theorem fillRow_frame (pRow pCol r : Int) :
    ∀ (fuel : Nat) (c : Int) (toks : List Ch) (g g2 : Grid) (rest : List Ch),
      fillRow pRow pCol r fuel c toks g = some (g2, rest) →
      ∀ x y, (x ≠ r ∨ y < c) → g2 x y = g x y := by
  intro fuel
  induction fuel with
  | zero =>
    intro c toks g g2 rest h x y hxy
    simp only [fillRow, Option.some.injEq, Prod.mk.injEq] at h
    rw [← h.1]
  | succ n ih =>
    intro c toks g g2 rest h x y hxy
    cases toks with
    | nil => simp [fillRow] at h
    | cons t rest0 =>
      simp only [fillRow] at h
      split_ifs at h
      all_goals first
        | exact absurd h (by simp)
        | (refine Eq.trans (ih _ _ _ _ _ h x y ?_) (upd_other _ _ _ _ ?_)
           · rcases hxy with hh | hh
             · exact Or.inl hh
             · exact Or.inr (by omega)
           · rintro ⟨hx1, hy1⟩
             rcases hxy with hh | hh
             · exact hh hx1
             · omega)

/-- If the start cell's column lies in the scanned range of its own row,
the column loop stores `Player` there. -/
theorem fillRow_start (pRow pCol : Int) :
    ∀ (fuel : Nat) (c : Int) (toks : List Ch) (g g2 : Grid) (rest : List Ch),
      fillRow pRow pCol pRow fuel c toks g = some (g2, rest) →
      c ≤ pCol → pCol < c + (fuel : Int) → g2 pRow pCol = Ch.player := by
  intro fuel
  induction fuel with
  | zero =>
    intro c toks g g2 rest h hc1 hc2
    omega
  | succ n ih =>
    intro c toks g g2 rest h hc1 hc2
    cases toks with
    | nil => simp [fillRow] at h
    | cons t rest0 =>
      simp only [fillRow] at h
      by_cases hc : c = pCol
      · rw [if_pos ⟨by trivial, hc⟩] at h
        have hframe := fillRow_frame pRow pCol pRow n (c + 1) rest0 _ g2 rest h
          pRow pCol (Or.inr (by omega))
        rw [hframe, hc, upd_self]
      · rw [if_neg (by rintro ⟨_, hcc⟩; exact hc hcc)] at h
        split_ifs at h
        all_goals first
          | exact absurd h (by simp)
          | exact ih (c + 1) rest0 _ _ _ h (by omega) (by push_cast; omega)

/-- An unrecognized token at row-major index `j * colFuel + k` (for a cell
that is not the start cell) makes the whole tile loop fail. -/
theorem fillAll_bad (pRow pCol : Int) (colFuel : Nat) :
    ∀ (rowFuel : Nat) (r : Int) (toks : List Ch) (g : Grid) (j k : Nat) (t : Ch),
      toks[j * colFuel + k]? = some t → (t = Ch.bad ∨ t = Ch.player) →
      k < colFuel → j < rowFuel → ¬(r + (j : Int) = pRow ∧ (k : Int) = pCol) →
      fillAll pRow pCol colFuel rowFuel r toks g = none := by
  intro rowFuel
  induction rowFuel with
  | zero =>
    intro r toks g j k t h1 h2 h3 h4 h5
    omega
  | succ n ih =>
    intro r toks g j k t h1 h2 h3 h4 h5
    simp only [fillAll]
    cases j with
    | zero =>
      rw [fillRow_bad pRow pCol r colFuel 0 toks g k t (by simpa using h1) h2 h3
        (by rintro ⟨hr, hc⟩; exact h5 ⟨by omega, by omega⟩)]
    | succ j0 =>
      cases hfr : fillRow pRow pCol r colFuel 0 toks g with
      | none => rfl
      | some pr =>
        obtain ⟨g2, rest⟩ := pr
        have hdrop := fillRow_drop pRow pCol r colFuel 0 toks g g2 rest hfr
        have hidx : rest[j0 * colFuel + k]? = some t := by
          rw [hdrop, List.getElem?_drop]
          have harith : colFuel + (j0 * colFuel + k) = (j0 + 1) * colFuel + k := by
            ring
          rw [harith]
          exact h1
        exact ih (r + 1) rest g2 j0 k t hidx h2 h3 (by omega)
          (by rintro ⟨hr, hc⟩; exact h5 ⟨by push_cast at hr ⊢; omega, hc⟩)

/-- Any `Player` present after the full tile loop was either already in the
incoming grid or sits at the start cell. -/
theorem fillAll_player_src (pRow pCol : Int) (colFuel : Nat) :
    ∀ (rowFuel : Nat) (r : Int) (toks : List Ch) (g g2 : Grid) (rest : List Ch),
      fillAll pRow pCol colFuel rowFuel r toks g = some (g2, rest) →
      ∀ x y, g2 x y = Ch.player →
        g x y = Ch.player ∨ (x = pRow ∧ y = pCol) := by
  intro rowFuel
  induction rowFuel with
  | zero =>
    intro r toks g g2 rest h x y hx
    simp only [fillAll, Option.some.injEq, Prod.mk.injEq] at h
    rw [← h.1] at hx
    exact Or.inl hx
  | succ n ih =>
    intro r toks g g2 rest h x y hx
    simp only [fillAll] at h
    cases hfr : fillRow pRow pCol r colFuel 0 toks g with
    | none =>
      rw [hfr] at h
      simp at h
    | some pr =>
      obtain ⟨ga, resta⟩ := pr
      rw [hfr] at h
      simp only [] at h
      rcases ih (r + 1) resta ga g2 rest h x y hx with hg | hr2
      · exact fillRow_player_src pRow pCol r colFuel 0 toks g ga resta hfr x y hg
      · exact Or.inr hr2

/-- The tile loop starting at row `r` never touches rows `< r`. -/
theorem fillAll_frame (pRow pCol : Int) (colFuel : Nat) :
    ∀ (rowFuel : Nat) (r : Int) (toks : List Ch) (g g2 : Grid) (rest : List Ch),
      fillAll pRow pCol colFuel rowFuel r toks g = some (g2, rest) →
      ∀ x y, x < r → g2 x y = g x y := by
  intro rowFuel
  induction rowFuel with
  | zero =>
    intro r toks g g2 rest h x y hx
    simp only [fillAll, Option.some.injEq, Prod.mk.injEq] at h
    rw [← h.1]
  | succ n ih =>
    intro r toks g g2 rest h x y hx
    simp only [fillAll] at h
    cases hfr : fillRow pRow pCol r colFuel 0 toks g with
    | none =>
      rw [hfr] at h
      simp at h
    | some pr =>
      obtain ⟨ga, resta⟩ := pr
      rw [hfr] at h
      simp only [] at h
      rw [ih (r + 1) resta ga g2 rest h x y (by omega)]
      exact fillRow_frame pRow pCol r colFuel 0 toks g ga resta hfr x y
        (Or.inl (by omega))

/-- If the start cell lies within the scanned rectangle, the tile loop
stores `Player` there. -/
theorem fillAll_start (pRow pCol : Int) (colFuel : Nat) :
    ∀ (rowFuel : Nat) (r : Int) (toks : List Ch) (g g2 : Grid) (rest : List Ch),
      fillAll pRow pCol colFuel rowFuel r toks g = some (g2, rest) →
      r ≤ pRow → pRow < r + (rowFuel : Int) → 0 ≤ pCol →
      pCol < (colFuel : Int) → g2 pRow pCol = Ch.player := by
  intro rowFuel
  induction rowFuel with
  | zero =>
    intro r toks g g2 rest h h1 h2 h3 h4
    omega
  | succ n ih =>
    intro r toks g g2 rest h h1 h2 h3 h4
    simp only [fillAll] at h
    cases hfr : fillRow pRow pCol r colFuel 0 toks g with
    | none =>
      rw [hfr] at h
      simp at h
    | some pr =>
      obtain ⟨ga, resta⟩ := pr
      rw [hfr] at h
      simp only [] at h
      by_cases hrow : r = pRow
      · subst hrow
        have hga : ga r pCol = Ch.player :=
          fillRow_start r pCol colFuel 0 toks g ga resta hfr h3 (by omega)
        rw [fillAll_frame r pCol colFuel n (r + 1) resta ga g2 rest h r pCol
          (by omega)]
        exact hga
      · exact ih (r + 1) resta ga g2 rest h (by omega) (by push_cast; omega) h3 h4

/-- An accepted level has exactly one `Player`, at the declared start. -/
theorem loadLevel_onePlayer (maxRow maxCol pRow pCol : Int) (toks : List Ch)
    (g : Grid) (h : loadLevel maxRow maxCol pRow pCol toks = some g) :
    onePlayerAt g maxRow maxCol pRow pCol := by
  simp only [loadLevel] at h
  split_ifs at h with h1 h2 h3
  cases hfa : fillAll pRow pCol maxCol.toNat maxRow.toNat 0 toks
      (fun _ _ => Ch.openT) with
  | none =>
    rw [hfa] at h
    simp at h
  | some pr =>
    obtain ⟨g0, rest⟩ := pr
    rw [hfa] at h
    simp only [] at h
    cases rest with
    | cons a b => simp at h
    | nil =>
      split_ifs at h with h4
      rw [Option.some.injEq] at h
      subst h
      have hb1 : 0 ≤ pRow := by omega
      have hb2 : pRow < maxRow := by omega
      have hb3 : 0 ≤ pCol := by omega
      have hb4 : pCol < maxCol := by omega
      refine ⟨hb1, hb2, hb3, hb4, ?_, ?_⟩
      · exact fillAll_start pRow pCol maxCol.toNat maxRow.toNat 0 toks _ g0 []
          hfa hb1 (by omega) hb3 (by omega)
      · intro r hr c hc hp
        rcases fillAll_player_src pRow pCol maxCol.toNat maxRow.toNat 0 toks _
            g0 [] hfa (r : Int) (c : Int) hp with hg | hcenter
        · exact absurd hg (by decide)
        · exact hcenter

/-- An unrecognized (or player) token at any in-bounds cell other than the
start cell makes `loadLevel` fail. -/
theorem loadLevel_bad_token (maxRow maxCol pRow pCol : Int) (toks : List Ch)
    (r c : Int) (t : Ch)
    (hr : 0 ≤ r) (hr2 : r < maxRow) (hc : 0 ≤ c) (hc2 : c < maxCol)
    (hne : ¬(r = pRow ∧ c = pCol))
    (htok : toks[(r * maxCol + c).toNat]? = some t)
    (hbad : t = Ch.bad ∨ t = Ch.player) :
    loadLevel maxRow maxCol pRow pCol toks = none := by
  have hMC : (0 : Int) ≤ maxCol := by omega
  have hidx : (r * maxCol + c).toNat = r.toNat * maxCol.toNat + c.toNat := by
    obtain ⟨a, rfl⟩ := Int.eq_ofNat_of_zero_le hr
    obtain ⟨b, rfl⟩ := Int.eq_ofNat_of_zero_le hc
    obtain ⟨M, rfl⟩ := Int.eq_ofNat_of_zero_le hMC
    simp only [Int.toNat_natCast]
    rw [← Nat.cast_mul, ← Nat.cast_add, Int.toNat_natCast]
  simp only [loadLevel]
  split_ifs with h1 h2 h3
  · rfl
  · rfl
  · rfl
  · rw [fillAll_bad pRow pCol maxCol.toNat maxRow.toNat 0 toks
      (fun _ _ => Ch.openT) r.toNat c.toNat t
      (by rw [← hidx]; exact htok) hbad (by omega) (by omega)
      (by rintro ⟨e1, e2⟩; exact hne ⟨by omega, by omega⟩)]

/-! ### Claim theorems -/

/-- C1 counterexample: on a one-column level with the player at (4,0) and
monsters at (2,0) (ray distance 2) and (1,0) (ray distance 3), one
`doMonsterAttack` call moves **both** monsters: the farther monster's cell
(1,0) is vacated to `Open` and both (2,0) and (3,0) hold `Monster`
afterwards.  The claim predicts the scan stops at the nearest monster, so
the cell (1,0) would still hold `Monster`. -/
theorem farther_monster_also_moves :
    twoMonsterColumn 4 0 = Ch.player ∧
    twoMonsterColumn 2 0 = Ch.monster ∧
    twoMonsterColumn 1 0 = Ch.monster ∧
    (doMonsterAttack twoMonsterColumn 5 1 ⟨4, 0, 0⟩).1 1 0 = Ch.openT ∧
    (doMonsterAttack twoMonsterColumn 5 1 ⟨4, 0, 0⟩).1 2 0 = Ch.monster ∧
    (doMonsterAttack twoMonsterColumn 5 1 ⟨4, 0, 0⟩).1 3 0 = Ch.monster := by
  decide

/-- C1 (amended): per ray, scanning does **not** stop at the first monster:
every monster at a ray distance `dist` within the scanned length with no
pillar at distances `1..dist` is advanced one step toward the player by a
single `monsterTurn` call (scanning stops only at a pillar). -/
theorem every_clear_monster_advances (g : Grid) (maxRow maxCol : Int)
    (p : Player) (d : Dir) (dist : Nat) (hdist : 1 ≤ dist)
    (hL : (dist : Int) ≤ rayLen maxRow maxCol p d)
    (hnp : ∀ k : Nat, k ≤ dist → 1 ≤ k →
      g (posR p.row d k) (posC p.col d k) ≠ Ch.pillar)
    (hmon : g (posR p.row d dist) (posC p.col d dist) = Ch.monster) :
    (doMonsterAttack g maxRow maxCol p).1
      (posR p.row d ((dist : Int) - 1)) (posC p.col d ((dist : Int) - 1)) =
      Ch.monster :=
  doMonsterAttack_advance g maxRow maxCol p d dist hdist hL hnp hmon

/-- Witness for the amended C1 theorem on the concrete two-monster column,
for the farther monster (ray distance 3). -/
theorem every_clear_monster_advances_witness :
    (∀ k : Nat, k ≤ 3 → 1 ≤ k →
      twoMonsterColumn (posR 4 Dir.up k) (posC 0 Dir.up k) ≠ Ch.pillar) ∧
    twoMonsterColumn (posR 4 Dir.up 3) (posC 0 Dir.up 3) = Ch.monster ∧
    (doMonsterAttack twoMonsterColumn 5 1 ⟨4, 0, 0⟩).1
      (posR 4 Dir.up (((3 : Nat) : Int) - 1))
      (posC 0 Dir.up (((3 : Nat) : Int) - 1)) = Ch.monster :=
  ⟨by decide, by decide,
   every_clear_monster_advances twoMonsterColumn 5 1 ⟨4, 0, 0⟩ Dir.up 3
     (by decide) (by decide) (by decide) (by decide)⟩

/-- C2 counterexample: with a monster directly above the player,
`doMonsterAttack` writes `Monster` onto the player's own cell (1,1) —
so `monsterTurn` does write to the player's cell, and the call destroys
the exactly-one-`Player` invariant (the `Player` tile is overwritten). -/
theorem monsterTurn_writes_player_cell :
    adjacentMonsterRoom 1 1 = Ch.player ∧
    adjacentMonsterRoom 0 1 = Ch.monster ∧
    (doMonsterAttack adjacentMonsterRoom 3 3 ⟨1, 1, 0⟩).1 1 1 = Ch.monster ∧
    (doMonsterAttack adjacentMonsterRoom 3 3 ⟨1, 1, 0⟩).2 = true := by
  decide

/-- C2 (amended): `load`, `move` and `resize` preserve the
exactly-one-`Player` invariant; `monsterTurn` preserves it whenever it
returns `false`, and the only write it ever makes to the player's cell is
`Monster` when a capture happens (in which case it returns `true`). -/
theorem player_uniqueness_preservation :
    (∀ (maxRow maxCol pRow pCol : Int) (toks : List Ch) (g : Grid),
      loadLevel maxRow maxCol pRow pCol toks = some g →
      onePlayerAt g maxRow maxCol pRow pCol) ∧
    (∀ (g : Grid) (maxRow maxCol : Int) (p : Player) (nr nc : Int),
      onePlayerAt g maxRow maxCol p.row p.col →
      onePlayerAt (doPlayerMove g maxRow maxCol p nr nc).1 maxRow maxCol
        (doPlayerMove g maxRow maxCol p nr nc).2.1.row
        (doPlayerMove g maxRow maxCol p nr nc).2.1.col) ∧
    (∀ (g g2 : Grid) (maxRow maxCol r0 c0 R2 C2 : Int),
      onePlayerAt g maxRow maxCol r0 c0 →
      resizeMap (some g) maxRow maxCol = (some g2, R2, C2) →
      onePlayerAt g2 R2 C2 r0 c0) ∧
    (∀ (g : Grid) (maxRow maxCol : Int) (p : Player),
      onePlayerAt g maxRow maxCol p.row p.col →
      (((doMonsterAttack g maxRow maxCol p).2 = false →
        onePlayerAt (doMonsterAttack g maxRow maxCol p).1 maxRow maxCol
          p.row p.col) ∧
       ((doMonsterAttack g maxRow maxCol p).1 p.row p.col ≠ Ch.player →
        (doMonsterAttack g maxRow maxCol p).1 p.row p.col = Ch.monster ∧
          (doMonsterAttack g maxRow maxCol p).2 = true))) := by
  refine ⟨?_, ?_, ?_, ?_⟩
  · exact fun maxRow maxCol pRow pCol toks g h =>
      loadLevel_onePlayer maxRow maxCol pRow pCol toks g h
  · exact fun g maxRow maxCol p nr nc h =>
      doPlayerMove_onePlayer g maxRow maxCol p nr nc h
  · intro g g2 maxRow maxCol r0 c0 R2 C2 hone hres
    simp only [resizeMap] at hres
    rw [if_neg (by
      obtain ⟨a1, a2, a3, a4, _, _⟩ := hone
      omega)] at hres
    by_cases hov : maxRow * 2 > INT32_MAX / (maxCol * 2)
    · rw [if_pos hov] at hres
      simp at hres
    · rw [if_neg hov] at hres
      cases hcm : createMap (maxRow * 2) (maxCol * 2) with
      | none =>
        rw [hcm] at hres
        simp at hres
      | some base =>
        rw [hcm] at hres
        simp only [Prod.mk.injEq, Option.some.injEq] at hres
        obtain ⟨hg2, hR2, hC2⟩ := hres
        rw [← hg2, ← hR2, ← hC2]
        exact tileQuad_onePlayer g maxRow maxCol r0 c0 hone
  · intro g maxRow maxCol p hone
    obtain ⟨hb1, hb2, hb3, hb4, h5, h6⟩ := hone
    constructor
    · intro hfalse
      have hpos0 : (doMonsterAttack g maxRow maxCol p).1 p.row p.col =
          g p.row p.col := by
        by_contra hch
        have hcap := doMonsterAttack_pos0_changed g maxRow maxCol p hch
        rw [hcap.2] at hfalse
        exact absurd hfalse (by decide)
      refine ⟨hb1, hb2, hb3, hb4, by rw [hpos0]; exact h5, ?_⟩
      intro r hr c hc hp
      exact h6 r hr c hc (doMonsterAttack_no_new_player g maxRow maxCol p _ _ hp)
    · intro hne
      refine doMonsterAttack_pos0_changed g maxRow maxCol p ?_
      rw [h5]
      exact hne

/-- Witness for the amended C2 theorem: its monster part applied to the
concrete room with a monster adjacent to the player. -/
theorem player_uniqueness_preservation_witness :
    onePlayerAt adjacentMonsterRoom 3 3 1 1 ∧
    ((doMonsterAttack adjacentMonsterRoom 3 3 ⟨1, 1, 0⟩).1 1 1 ≠ Ch.player →
      (doMonsterAttack adjacentMonsterRoom 3 3 ⟨1, 1, 0⟩).1 1 1 = Ch.monster ∧
        (doMonsterAttack adjacentMonsterRoom 3 3 ⟨1, 1, 0⟩).2 = true) :=
  ⟨by decide,
   (player_uniqueness_preservation.2.2.2 adjacentMonsterRoom 3 3 ⟨1, 1, 0⟩
     (by decide)).2⟩

/-- C3 counterexample: a source whose tile token at the declared start
cell (0,0) is an unrecognized character is **accepted** by `loadLevel`
(the start cell is stored as `Player` before the token is examined), and
the start cell holds `Player`.  The claim predicts failure. -/
theorem bad_token_at_start_accepted :
    (loadLevel 2 2 0 0 [Ch.bad, Ch.openT, Ch.openT, Ch.doorT]).isSome = true ∧
    ((loadLevel 2 2 0 0 [Ch.bad, Ch.openT, Ch.openT, Ch.doorT]).getD
      (fun _ _ => Ch.openT)) 0 0 = Ch.player := by
  decide

/-- C3 (amended): an unrecognized tile token (any character outside the
seven recognized tile symbols, including the player character itself)
makes `loadLevel` fail whenever it occupies an in-bounds cell **other than
the declared start cell**; the token at the start cell is consumed without
validation. -/
theorem bad_token_elsewhere_rejected (maxRow maxCol pRow pCol : Int)
    (toks : List Ch) (r c : Int) (t : Ch)
    (hr : 0 ≤ r) (hr2 : r < maxRow) (hc : 0 ≤ c) (hc2 : c < maxCol)
    (hne : ¬(r = pRow ∧ c = pCol))
    (htok : toks[(r * maxCol + c).toNat]? = some t)
    (hbad : t = Ch.bad ∨ t = Ch.player) :
    loadLevel maxRow maxCol pRow pCol toks = none :=
  loadLevel_bad_token maxRow maxCol pRow pCol toks r c t hr hr2 hc hc2 hne
    htok hbad

/-- Witness for the amended C3 theorem: the same source with the bad token
moved off the start cell (to (0,1)) is rejected. -/
theorem bad_token_elsewhere_rejected_witness :
    ([Ch.openT, Ch.bad, Ch.openT, Ch.doorT] :
      List Ch)[((0 : Int) * 2 + 1).toNat]? = some Ch.bad ∧
    loadLevel 2 2 0 0 [Ch.openT, Ch.bad, Ch.openT, Ch.doorT] = none :=
  ⟨by decide,
   bad_token_elsewhere_rejected 2 2 0 0 [Ch.openT, Ch.bad, Ch.openT, Ch.doorT]
     0 1 Ch.bad (by decide) (by decide) (by decide) (by decide) (by decide)
     (by decide) (Or.inl rfl)⟩

/-- C4: on a non-empty grid holding exactly one `Player`, with the doubled
dimensions within the 32-bit bound, `resizeMap` succeeds, returns doubled
dimensions, the new grid is the 2×2 tiling of the original with every
`Player` copy outside the top-left quadrant written as `Open`, and exactly
one `Player` survives at its original coordinates. -/
theorem resizeMap_quadrants (g : Grid) (maxRow maxCol r0 c0 : Int)
    (hone : onePlayerAt g maxRow maxCol r0 c0)
    (hov : maxRow * 2 * (maxCol * 2) ≤ INT32_MAX) :
    resizeMap (some g) maxRow maxCol =
      (some (tileQuad g maxRow maxCol), maxRow * 2, maxCol * 2) ∧
    (∀ r c : Int, 0 ≤ r → r < maxRow → 0 ≤ c → c < maxCol →
      tileQuad g maxRow maxCol r c = g r c ∧
      tileQuad g maxRow maxCol (r + maxRow) c =
        (if g r c = Ch.player then Ch.openT else g r c) ∧
      tileQuad g maxRow maxCol r (c + maxCol) =
        (if g r c = Ch.player then Ch.openT else g r c) ∧
      tileQuad g maxRow maxCol (r + maxRow) (c + maxCol) =
        (if g r c = Ch.player then Ch.openT else g r c)) ∧
    onePlayerAt (tileQuad g maxRow maxCol) (maxRow * 2) (maxCol * 2) r0 c0 := by
  have hR : 0 < maxRow := by
    obtain ⟨a1, a2, _, _, _, _⟩ := hone
    omega
  have hC : 0 < maxCol := by
    obtain ⟨_, _, a3, a4, _, _⟩ := hone
    omega
  exact ⟨resizeMap_eq g maxRow maxCol hR hC hov,
    fun r c hr1 hr2 hc1 hc2 => tileQuad_cells g maxRow maxCol r c hr1 hr2 hc1 hc2,
    tileQuad_onePlayer g maxRow maxCol r0 c0 hone⟩

/-- Witness for C4 on the concrete 2×2 room. -/
theorem resizeMap_quadrants_witness :
    onePlayerAt exitRoom 2 2 0 0 ∧
    2 * 2 * (2 * 2) ≤ INT32_MAX ∧
    (resizeMap (some exitRoom) 2 2 =
      (some (tileQuad exitRoom 2 2), 2 * 2, 2 * 2) ∧
    (∀ r c : Int, 0 ≤ r → r < 2 → 0 ≤ c → c < 2 →
      tileQuad exitRoom 2 2 r c = exitRoom r c ∧
      tileQuad exitRoom 2 2 (r + 2) c =
        (if exitRoom r c = Ch.player then Ch.openT else exitRoom r c) ∧
      tileQuad exitRoom 2 2 r (c + 2) =
        (if exitRoom r c = Ch.player then Ch.openT else exitRoom r c) ∧
      tileQuad exitRoom 2 2 (r + 2) (c + 2) =
        (if exitRoom r c = Ch.player then Ch.openT else exitRoom r c)) ∧
    onePlayerAt (tileQuad exitRoom 2 2) (2 * 2) (2 * 2) 0 0) :=
  ⟨by decide, by decide,
   resizeMap_quadrants exitRoom 2 2 0 0 (by decide) (by decide)⟩

/-- C5: moving onto an in-bounds `Exit` cell returns `Stayed` with no
mutation when the treasure count is 0, and with treasure ≥ 1 returns
`Escaped`, updates the player's coordinates, and marks the old cell `Open`
and the new cell `Player`. -/
theorem move_exit_semantics (g : Grid) (maxRow maxCol : Int) (p : Player)
    (nr nc : Int) (hvalid : g p.row p.col = Ch.player)
    (hb1 : 0 ≤ nr) (hb2 : nr < maxRow) (hb3 : 0 ≤ nc) (hb4 : nc < maxCol)
    (hexit : g nr nc = Ch.exitT) :
    (p.treasure = 0 →
      doPlayerMove g maxRow maxCol p nr nc = (g, p, STATUS_STAY)) ∧
    (1 ≤ p.treasure →
      doPlayerMove g maxRow maxCol p nr nc =
        (upd (upd g nr nc Ch.player) p.row p.col Ch.openT,
         { p with row := nr, col := nc }, STATUS_ESCAPE) ∧
      (upd (upd g nr nc Ch.player) p.row p.col Ch.openT) nr nc = Ch.player ∧
      (upd (upd g nr nc Ch.player) p.row p.col Ch.openT) p.row p.col =
        Ch.openT) := by
  have hner : ¬(nr = p.row ∧ nc = p.col) := by
    rintro ⟨rfl, rfl⟩
    rw [hvalid] at hexit
    exact absurd hexit (by decide)
  constructor
  · intro ht
    simp only [doPlayerMove]
    rw [if_neg (by omega), if_neg (by omega),
      if_neg (by rw [hexit]; decide), if_pos ⟨hexit, ht⟩]
  · intro ht
    refine ⟨?_, ?_, ?_⟩
    · simp only [doPlayerMove]
      rw [if_neg (by omega), if_neg (by omega),
        if_neg (by rw [hexit]; decide),
        if_neg (by rintro ⟨_, h0⟩; omega),
        if_pos ⟨hexit, by omega⟩]
    · rw [upd_other _ _ _ _ hner, upd_self]
    · exact upd_self _ _ _ _

/-- Witness for C5 on the concrete exit room with one treasure. -/
theorem move_exit_semantics_witness :
    exitRoom 0 0 = Ch.player ∧ exitRoom 0 1 = Ch.exitT ∧
    ((((⟨0, 0, 1⟩ : Player).treasure = 0 →
        doPlayerMove exitRoom 2 2 ⟨0, 0, 1⟩ 0 1 = (exitRoom, ⟨0, 0, 1⟩, STATUS_STAY)) ∧
      (1 ≤ (⟨0, 0, 1⟩ : Player).treasure →
        doPlayerMove exitRoom 2 2 ⟨0, 0, 1⟩ 0 1 =
          (upd (upd exitRoom 0 1 Ch.player) 0 0 Ch.openT,
           ⟨0, 1, 1⟩, STATUS_ESCAPE) ∧
        (upd (upd exitRoom 0 1 Ch.player) 0 0 Ch.openT) 0 1 = Ch.player ∧
        (upd (upd exitRoom 0 1 Ch.player) 0 0 Ch.openT) 0 0 = Ch.openT))) :=
  ⟨by decide, by decide,
   move_exit_semantics exitRoom 2 2 ⟨0, 0, 1⟩ 0 1 (by decide) (by decide)
     (by decide) (by decide) (by decide) (by decide)⟩

/-- C6: a move whose in-bounds target holds `Pillar` or `Monster` returns
`Stayed` and leaves the grid and the player exactly as they were; the
check fires before any of the other tile rules. -/
theorem move_blocked_by_pillar_or_monster (g : Grid) (maxRow maxCol : Int)
    (p : Player) (nr nc : Int)
    (hb1 : 0 ≤ nr) (hb2 : nr < maxRow) (hb3 : 0 ≤ nc) (hb4 : nc < maxCol)
    (hblock : g nr nc = Ch.pillar ∨ g nr nc = Ch.monster) :
    doPlayerMove g maxRow maxCol p nr nc = (g, p, STATUS_STAY) := by
  simp only [doPlayerMove]
  rw [if_neg (by omega), if_neg (by omega), if_pos (Or.symm hblock)]

/-- Witness for C6 on the concrete pillar room. -/
theorem move_blocked_by_pillar_or_monster_witness :
    pillarRoom 0 1 = Ch.pillar ∧
    doPlayerMove pillarRoom 1 2 ⟨0, 0, 0⟩ 0 1 =
      (pillarRoom, ⟨0, 0, 0⟩, STATUS_STAY) :=
  ⟨by decide,
   move_blocked_by_pillar_or_monster pillarRoom 1 2 ⟨0, 0, 0⟩ 0 1 (by decide)
     (by decide) (by decide) (by decide) (Or.inl (by decide))⟩

/-- C7: with a valid Grid/Player pairing (the player's cell holds
`Player`), `monsterTurn` never disturbs pillars: every `Pillar` cell keeps
its value (in particular no `Monster` is ever written onto a `Pillar`),
and once a pillar sits at ray distance `dist`, every cell strictly beyond
it on that ray is left untouched (the scan stops at the pillar). -/
theorem monsterTurn_respects_pillars (g : Grid) (maxRow maxCol : Int)
    (p : Player) (hp : g p.row p.col = Ch.player) :
    (∀ x y, g x y = Ch.pillar →
      (doMonsterAttack g maxRow maxCol p).1 x y = Ch.pillar) ∧
    (∀ (d : Dir) (dist : Nat), 1 ≤ dist →
      g (posR p.row d dist) (posC p.col d dist) = Ch.pillar →
      ∀ m : Nat, dist < m →
        (doMonsterAttack g maxRow maxCol p).1 (posR p.row d m) (posC p.col d m) =
          g (posR p.row d m) (posC p.col d m)) :=
  ⟨doMonsterAttack_pillar_stay g maxRow maxCol p (by rw [hp]; decide),
   fun d dist h1 h2 m hm =>
     doMonsterAttack_beyond_pillar g maxRow maxCol p d dist h1 h2 m hm⟩

/-- Witness for C7 on the shielded-monster column: the pillar at (1,0)
survives the call and the monster beyond it at (0,0) does not move. -/
theorem monsterTurn_respects_pillars_witness :
    shieldedMonsterColumn 3 0 = Ch.player ∧
    shieldedMonsterColumn 1 0 = Ch.pillar ∧
    (doMonsterAttack shieldedMonsterColumn 4 1 ⟨3, 0, 0⟩).1 1 0 = Ch.pillar ∧
    (doMonsterAttack shieldedMonsterColumn 4 1 ⟨3, 0, 0⟩).1
      (posR 3 Dir.up 3) (posC 0 Dir.up 3) =
      shieldedMonsterColumn (posR 3 Dir.up 3) (posC 0 Dir.up 3) :=
  ⟨by decide, by decide,
   (monsterTurn_respects_pillars shieldedMonsterColumn 4 1 ⟨3, 0, 0⟩
     (by decide)).1 1 0 (by decide),
   (monsterTurn_respects_pillars shieldedMonsterColumn 4 1 ⟨3, 0, 0⟩
     (by decide)).2 Dir.up 2 (by decide) (by decide) 3 (by decide)⟩

/-- C8: every level source that `loadLevel` accepts yields a grid with
exactly one `Player` cell, located at the declared start position (the
source token there having been discarded). -/
theorem loadLevel_unique_player (maxRow maxCol pRow pCol : Int)
    (toks : List Ch) (g : Grid)
    (h : loadLevel maxRow maxCol pRow pCol toks = some g) :
    onePlayerAt g maxRow maxCol pRow pCol :=
  loadLevel_onePlayer maxRow maxCol pRow pCol toks g h

/-- Witness for C8 on a concrete accepted 2×2 level. -/
theorem loadLevel_unique_player_witness :
    (loadLevel 2 2 0 0 [Ch.openT, Ch.openT, Ch.openT, Ch.doorT]).isSome = true ∧
    onePlayerAt ((loadLevel 2 2 0 0 [Ch.openT, Ch.openT, Ch.openT, Ch.doorT]).getD
      (fun _ _ => Ch.openT)) 2 2 0 0 := by
  refine ⟨by decide, ?_⟩
  cases hL : loadLevel 2 2 0 0 [Ch.openT, Ch.openT, Ch.openT, Ch.doorT] with
  | none =>
    have hs : (loadLevel 2 2 0 0 [Ch.openT, Ch.openT, Ch.openT, Ch.doorT]).isSome =
        true := by decide
    rw [hL] at hs
    simp at hs
  | some g0 =>
    have h := loadLevel_unique_player 2 2 0 0
      [Ch.openT, Ch.openT, Ch.openT, Ch.doorT] g0 hL
    simpa using h

/-- C9: a move whose target is the player's own (in-bounds) cell — the
cell holding `Player`, as produced by the stay direction's (0,0) delta —
returns `Stayed` and changes nothing: the target tile is `Player`, which
matches no rule of the chain, so the final `return 0` is taken. -/
theorem move_onto_self_stays (g : Grid) (maxRow maxCol : Int) (p : Player)
    (hb1 : 0 ≤ p.row) (hb2 : p.row < maxRow) (hb3 : 0 ≤ p.col)
    (hb4 : p.col < maxCol) (hvalid : g p.row p.col = Ch.player) :
    doPlayerMove g maxRow maxCol p p.row p.col = (g, p, STATUS_STAY) := by
  simp only [doPlayerMove]
  rw [if_neg (by omega), if_neg (by omega),
    if_neg (by rw [hvalid]; decide),
    if_neg (by rintro ⟨hx, _⟩; rw [hvalid] at hx; exact absurd hx (by decide)),
    if_neg (by rintro ⟨hx, _⟩; rw [hvalid] at hx; exact absurd hx (by decide)),
    if_neg (by rw [hvalid]; decide), if_neg (by rw [hvalid]; decide),
    if_neg (by rw [hvalid]; decide), if_neg (by rw [hvalid]; decide)]
  rfl

/-- Witness for C9 on the concrete exit room. -/
theorem move_onto_self_stays_witness :
    exitRoom 0 0 = Ch.player ∧
    doPlayerMove exitRoom 2 2 ⟨0, 0, 0⟩ 0 0 =
      (exitRoom, ⟨0, 0, 0⟩, STATUS_STAY) :=
  ⟨by decide,
   move_onto_self_stays exitRoom 2 2 ⟨0, 0, 0⟩ (by decide) (by decide)
     (by decide) (by decide) (by decide)⟩

/-- C10: when doubling overflows the 32-bit guard, `resizeMap` returns the
failure value, but the by-reference dimension arguments keep the doubled
values instead of being restored to the input dimensions. -/
theorem resizeMap_overflow_dims (m : Grid) (maxRow maxCol : Int)
    (hR : 0 < maxRow) (hC : 0 < maxCol)
    (hov : maxRow * 2 > INT32_MAX / (maxCol * 2)) :
    resizeMap (some m) maxRow maxCol = (none, maxRow * 2, maxCol * 2) := by
  simp only [resizeMap]
  rw [if_neg (by omega), if_pos hov]

/-- Witness for C10 at 32768×32768 (the doubled product overflows). -/
theorem resizeMap_overflow_dims_witness :
    (32768 : Int) * 2 > INT32_MAX / (32768 * 2) ∧
    resizeMap (some (fun _ _ => Ch.openT)) 32768 32768 =
      (none, 32768 * 2, 32768 * 2) :=
  ⟨by decide,
   resizeMap_overflow_dims (fun _ _ => Ch.openT) 32768 32768 (by decide)
     (by decide) (by decide)⟩
